import Mathlib

/-!
Verification development for the CSV normalization pipeline of `dsd.py`
(a Streamlit monthly-sales dashboard).  The core under study is
`normalize_df` together with its helpers `KOR_KEYS`, `pick_col`, the
numeric coercion `to_num`, the year-over-year lambda, the `%Y-%m` period
parser, the `dropna` row filter, the `sort_values("_dt")` chronological
sort (numpy argsort, default `kind='quicksort'`), and the derived columns
`매출차액` (delta) and `누적매출` (cumulative sales).

Modelling conventions:
* a cell is `Option String`; `none` models a missing value (NaN/null);
* Python floats are modelled by `ℚ`; binary floating-point rounding,
  non-finite values (`inf`, `nan` literals) and underscore digit
  separators accepted by Python `float()` are outside the model;
* strings are handled as `List Char`; Python `s.replace('%','')` on the
  one-character pattern is `List.filter (· != '%')`;
* the modelled character universe is ASCII plus the superscript digits
  `¹ ² ³` (characters for which Python `str.isdigit()` is true but
  `float()` fails); other non-ASCII digit characters are not modelled.
-/

namespace DSD

/-- Whitespace stripped by Python `str.strip()` / skipped by `float()`
(ASCII whitespace; Unicode space characters are outside the model). -/
def isPySpace (c : Char) : Bool :=
  c = ' ' || c = '\t' || c = '\n' || c = '\x0d' || c = '\x0b' || c = '\x0c'

/-- Python `str.strip()` on a character list. -/
def pyStripL (l : List Char) : List Char :=
  ((l.dropWhile isPySpace).reverse.dropWhile isPySpace).reverse

/-- Python `str(x)` on a cell: a missing value (pandas NaN) stringifies to
`"nan"`, as it does under `.astype(str)` in `normalize_df`. -/
def pyStr : Option String → String
  | none => "nan"
  | some s => s

/-- Numeric value of a decimal digit character. -/
def digitVal (c : Char) : ℕ := c.toNat - '0'.toNat

/-- Value of a big-endian decimal digit string. -/
def digitsVal (l : List Char) : ℕ := l.foldl (fun a c => 10 * a + digitVal c) 0

/-- Python `str.isdigit()`: true for Unicode characters of numeric type
Digit or Decimal, a strict superset of the ASCII digits.  Within the
modelled character universe this is the ASCII digits plus `¹ ² ³`. -/
def pyIsDigit (c : Char) : Bool :=
  c.isDigit || c = '¹' || c = '²' || c = '³'

/-- Mantissa and exponent suffix of Python `float()`: given the sign, the
integer-part digits and the fractional-part digits already consumed,
accept an optional exponent part and require that the input is fully
consumed. -/
def parseExp (sgn : ℚ) (ip fp : List Char) : List Char → Option ℚ
  | [] => some (sgn * ((digitsVal ip : ℚ) + (digitsVal fp : ℚ) / 10 ^ fp.length))
  | e :: r =>
    if e = 'e' ∨ e = 'E' then
      let esgn : ℤ := if r.head? = some '-' then -1 else 1
      let r1 : List Char :=
        if r.head? = some '-' ∨ r.head? = some '+' then r.tail else r
      let ed := r1.takeWhile Char.isDigit
      let r2 := r1.dropWhile Char.isDigit
      if ed.isEmpty || !r2.isEmpty then none
      else some (sgn * ((digitsVal ip : ℚ) + (digitsVal fp : ℚ) / 10 ^ fp.length) *
        (10 : ℚ) ^ (esgn * (digitsVal ed : ℤ)))
    else none

/-- Python `float(s)` on a character list: optional surrounding
whitespace, optional sign, decimal digits with optional point, optional
decimal exponent; `none` on any parse failure (Python raises `ValueError`
there).  Non-finite literals (`inf`, `nan`) and underscore separators are
outside the model (see the file header). -/
def pyFloatL (l : List Char) : Option ℚ :=
  let l1 := pyStripL l
  let sgn : ℚ := if l1.head? = some '-' then -1 else 1
  let l2 : List Char :=
    if l1.head? = some '-' ∨ l1.head? = some '+' then l1.tail else l1
  let ip := l2.takeWhile Char.isDigit
  let l3 := l2.dropWhile Char.isDigit
  if l3.head? = some '.' then
    let fp := l3.tail.takeWhile Char.isDigit
    let l4 := l3.tail.dropWhile Char.isDigit
    if ip.isEmpty && fp.isEmpty then none
    else parseExp sgn ip fp l4
  else
    if ip.isEmpty then none else parseExp sgn ip [] l3

/-- The numeric coercion `to_num` of `normalize_df` (sales and prior-year
path): `None` for a missing cell; otherwise stringify, delete every `%`,
keep only characters with `ch.isdigit()` or in `['-', '.']`, and parse the
remainder with `float()`, `None` on failure. -/
def to_num (cell : Option String) : Option ℚ :=
  match cell with
  | none => none
  | some s =>
    let l0 := s.data.filter (fun ch => ch != '%')
    let l1 := l0.filter (fun ch => pyIsDigit ch || ch = '-' || ch = '.')
    pyFloatL l1

/-- Errors that `normalize_df` can raise: the explicit missing-columns
`ValueError` (carrying the unresolved column names) and the `ValueError`
escaping from `float()` on the 증감률 (YoY) column map. -/
inductive NormError where
  | missingCols (cols : List String)
  | valueError (msg : String)
deriving DecidableEq

/-- The 증감률 (YoY rate) coercion lambda of `normalize_df`:
`float(str(x).replace('%','')) if pd.notna(x) and str(x).strip() != ''
else None`.  Unlike `to_num` it has no digit filtering and no
`try/except`: a parse failure raises, aborting `normalize_df`. -/
def to_yoy (cell : Option String) : Except NormError (Option ℚ) :=
  match cell with
  | none => .ok none
  | some s =>
    if pyStripL s.data = [] then .ok none
    else
      match pyFloatL (s.data.filter (fun ch => ch != '%')) with
      | some q => .ok (some q)
      | none => .error (.valueError "could not convert string to float")

/-- Model of `pd.to_datetime(col, format="%Y-%m", errors="coerce")` on one
cell, under the documented zero-padded reading of the directives: exactly
a 4-digit year (at least 0001), a hyphen, and a 2-digit month in 01..12;
any failure coerces to NaT (`none`).  The result is the month count
`y * 12 + m`, which is order-isomorphic to the `datetime64` value.
(`strptime` tolerance for non-padded fields and the `datetime64[ns]`
year bounds are version-dependent and not modelled.) -/
def parse_ym (s : String) : Option Int :=
  match s.data with
  | [y1, y2, y3, y4, '-', m1, m2] =>
    if y1.isDigit && y2.isDigit && y3.isDigit && y4.isDigit
        && m1.isDigit && m2.isDigit then
      let y := digitsVal [y1, y2, y3, y4]
      let m := digitsVal [m1, m2]
      if 1 ≤ y && 1 ≤ m && m ≤ 12 then some ((y : Int) * 12 + (m : Int))
      else none
    else none
  | _ => none

/-- The alias dictionary `KOR_KEYS` of `dsd.py` (Korean name first, then
the English variants, in source order). -/
def KOR_KEYS (field : String) : List String :=
  if field = "월" then ["월", "Month", "month"]
  else if field = "매출액" then ["매출액", "Sales", "sales"]
  else if field = "전년동월" then ["전년동월", "LY", "Prev", "prev", "last_year"]
  else if field = "증감률" then ["증감률", "YoY", "yoy", "chg"]
  else []

/-- `pick_col(df, keys)`: the first alias in `keys` that is a column of
`df` (here: a member of the header list), else `None`. -/
def pick_col (cols : List String) : List String → Option String
  | [] => none
  | k :: ks => if cols.contains k then some k else pick_col cols ks

/-- A raw DataFrame as handed to `normalize_df`: a header row and rows of
cells.  Headers are assumed distinct (`read_csv` mangles duplicates); a
column is addressed by the first header with the given name. -/
structure RawTable where
  headers : List String
  rows : List (List (Option String))
deriving DecidableEq

/-- An intermediate row of `normalize_df` before `dropna`/sort: the output
of lines 117-137 of `dsd.py` for one input row. -/
structure PreRow where
  «월» : String
  «매출액» : Option ℚ
  «전년동월» : Option ℚ
  «증감률» : Option ℚ
  dt : Option Int
deriving DecidableEq, Inhabited

/-- A row of the normalized DataFrame returned by `normalize_df`
(column order 월, 매출액, 전년동월, 증감률, _dt, 매출차액, 누적매출;
the helper column `_dt` is the parsed period). -/
structure NRow where
  «월» : String
  «매출액» : ℚ
  «전년동월» : Option ℚ
  «증감률» : Option ℚ
  dt : Int
  «매출차액» : ℚ
  «누적매출» : ℚ
deriving DecidableEq, Inhabited

/-- `df.columns = [str(c).strip() for c in df.columns]`. -/
def strippedHeaders (t : RawTable) : List String :=
  t.headers.map (fun c => String.mk (pyStripL c.data))

/-- `pick_col(df, KOR_KEYS[field]) or field` (the `or` default is the
Korean canonical name itself, which is the dictionary key). -/
def resolvedCol (hdrs : List String) (field : String) : String :=
  (pick_col hdrs (KOR_KEYS field)).getD field

/-- `[c for c in [col_month, col_sales, col_ly, col_yoy] if c not in
df.columns]`. -/
def missingOf (hdrs : List String) : List String :=
  ([resolvedCol hdrs "월", resolvedCol hdrs "매출액",
    resolvedCol hdrs "전년동월", resolvedCol hdrs "증감률"]).filter
    (fun c => !(hdrs.contains c))

/-- The cell of `row` in the column named `c` (first matching header;
missing for an absent column, which the missing-columns guard rules
out). -/
def cellAt (hdrs : List String) (c : String) (row : List (Option String)) :
    Option String :=
  row.getD (hdrs.indexOf c) none

/-- `df[col_month].astype(str).str.strip()` for one cell. -/
def monthOfCell (cell : Option String) : String :=
  String.mk (pyStripL (pyStr cell).data)

/-- Lines 117-137 of `dsd.py` for one input row: the stripped month
string, the coerced 매출액/전년동월 cells, the already-coerced 증감률
value, and the parsed period `_dt`. -/
def preOf (hdrs : List String) (row : List (Option String)) (yoy : Option ℚ) :
    PreRow :=
  let mon := monthOfCell (cellAt hdrs (resolvedCol hdrs "월") row)
  { «월» := mon
    «매출액» := to_num (cellAt hdrs (resolvedCol hdrs "매출액") row)
    «전년동월» := to_num (cellAt hdrs (resolvedCol hdrs "전년동월") row)
    «증감률» := yoy
    dt := parse_ym mon }

/-- The `dropna(subset=["_dt", "매출액"])` retention predicate. -/
def keepRow (p : PreRow) : Bool := p.dt.isSome && p.«매출액».isSome

/-- Sorting-key order on positions used to express the stable argsort:
position `i` precedes `j` when its key is smaller, or the keys are equal
and `i` comes first. -/
def idxLe (keys : List Int) (i j : ℕ) : Prop :=
  keys.getD i 0 < keys.getD j 0 ∨ (keys.getD i 0 = keys.getD j 0 ∧ i ≤ j)

instance (keys : List Int) : DecidableRel (idxLe keys) := fun i j => by
  unfold idxLe
  infer_instance

instance (keys : List Int) : IsTotal ℕ (idxLe keys) where
  total i j := by
    unfold idxLe
    rcases lt_trichotomy (keys.getD i 0) (keys.getD j 0) with h | h | h
    · exact Or.inl (Or.inl h)
    · rcases le_total i j with hij | hij
      · exact Or.inl (Or.inr ⟨h, hij⟩)
      · exact Or.inr (Or.inr ⟨h.symm, hij⟩)
    · exact Or.inr (Or.inl h)

instance (keys : List Int) : IsTrans ℕ (idxLe keys) where
  trans i j k hij hjk := by
    unfold idxLe at *
    rcases hij with h1 | ⟨e1, l1⟩
    · rcases hjk with h2 | ⟨e2, l2⟩
      · exact Or.inl (h1.trans h2)
      · exact Or.inl (e2 ▸ h1)
    · rcases hjk with h2 | ⟨e2, l2⟩
      · exact Or.inl (e1 ▸ h2)
      · exact Or.inr ⟨e1.trans e2, l1.trans l2⟩

/-- The key-sorted permutation of `0..n-1` with ties kept in original
order: what numpy's insertion sort (the regime of `aquicksort` for at
most `SMALL_QUICKSORT + 1 = 16` elements) computes. -/
def stableArgsort (keys : List Int) : List ℕ :=
  List.insertionSort (idxLe keys) (List.range keys.length)

/-- `LT(v[tosort[a]], v[tosort[b]])` for positions `a b` of the index
array. -/
def ltK (v : Array Int) (t : Array ℕ) (a b : ℕ) : Bool :=
  v.getD (t.getD a 0) 0 < v.getD (t.getD b 0) 0

/-- Swap two positions of the index array. -/
def swapT (t : Array ℕ) (i j : ℕ) : Array ℕ :=
  let x := t.getD i 0
  let y := t.getD j 0
  (t.setD i y).setD j x

/-- `do ++pi; while (LT(v[tosort[pi]], vp));` of numpy `aquicksort`
(fuelled; the median-of-3 sentinels stop it within the range). -/
def scanLo (v : Array Int) (t : Array ℕ) (vp : Int) : ℕ → ℕ → ℕ
  | pi, 0 => pi + 1
  | pi, fuel + 1 =>
    let pi' := pi + 1
    if v.getD (t.getD pi' 0) 0 < vp then scanLo v t vp pi' fuel else pi'

/-- `do --pj; while (LT(vp, v[tosort[pj]]));` of numpy `aquicksort`. -/
def scanHi (v : Array Int) (t : Array ℕ) (vp : Int) : ℕ → ℕ → ℕ
  | pj, 0 => pj - 1
  | pj, fuel + 1 =>
    let pj' := pj - 1
    if vp < v.getD (t.getD pj' 0) 0 then scanHi v t vp pj' fuel else pj'

/-- The Hoare partition loop of numpy `aquicksort` (`for (;;) { ... }`):
returns the updated index array and the final `pi`. -/
def partLoop (v : Array Int) (vp : Int) :
    Array ℕ → ℕ → ℕ → ℕ → Array ℕ × ℕ
  | t, pi, _, 0 => (t, pi)
  | t, pi, pj, fuel + 1 =>
    let pi' := scanLo v t vp pi (t.size + 1)
    let pj' := scanHi v t vp pj (t.size + 1)
    if pi' ≥ pj' then (t, pi')
    else partLoop v vp (swapT t pi' pj') pi' pj' fuel

/-- The trailing insertion-sort shift:
`while (pj > pl && LT(vp, v[tosort[pj-1]])) { tosort[pj] = tosort[pj-1]; pj--; }
tosort[pj] = vi;`. -/
def insShift (v : Array Int) (pl : ℕ) (vi : ℕ) (vp : Int) :
    Array ℕ → ℕ → Array ℕ
  | t, 0 => t.setD 0 vi
  | t, pj + 1 =>
    if pj + 1 > pl && decide (vp < v.getD (t.getD pj 0) 0) then
      insShift v pl vi vp (t.setD (pj + 1) (t.getD pj 0)) pj
    else t.setD (pj + 1) vi

/-- One step of the trailing insertion sort of numpy `aquicksort`. -/
def insStep (v : Array Int) (pl : ℕ) (t : Array ℕ) (pi : ℕ) : Array ℕ :=
  let vi := t.getD pi 0
  let vp := v.getD vi 0
  insShift v pl vi vp t pi

/-- The trailing insertion sort of numpy `aquicksort` on `[pl, pr]`:
`for (pi = pl + 1; pi <= pr; pi++) { ... }`. -/
def insSortRange (v : Array Int) (t : Array ℕ) (pl pr : ℕ) : Array ℕ :=
  (List.range' (pl + 1) (pr - pl)).foldl (fun t pi => insStep v pl t pi) t

/-- Sift-down step of numpy `aheapsort` (argsort variant, 1-based
indices into `tosort - 1`; here `a i` stands for `tosort[i-1]`). -/
def heapSift (v : Array Int) (tmp : ℕ) (vtmp : Int) (n : ℕ) :
    Array ℕ → ℕ → ℕ → ℕ → Array ℕ
  | t, i, _, 0 => t.setD (i - 1) tmp
  | t, i, j, fuel + 1 =>
    if j ≤ n then
      let j := if j < n &&
          decide (v.getD (t.getD (j - 1) 0) 0 < v.getD (t.getD j 0) 0)
        then j + 1 else j
      if vtmp < v.getD (t.getD (j - 1) 0) 0 then
        heapSift v tmp vtmp n (t.setD (i - 1) (t.getD (j - 1) 0)) j (2 * j) fuel
      else t.setD (i - 1) tmp
    else t.setD (i - 1) tmp

/-- numpy `aheapsort` on the first `n` positions of the index array
(the depth-limit fallback of introsort; unreachable for the inputs
considered in the theorems below, modelled for completeness). -/
def aheapsort (v : Array Int) (t0 : Array ℕ) (n : ℕ) : Array ℕ :=
  let t1 := (List.range (n / 2)).foldl
    (fun t k =>
      let l := n / 2 - k
      let tmp := t.getD (l - 1) 0
      heapSift v tmp (v.getD tmp 0) n t l (2 * l) (n + 1)) t0
  (List.range (n - 1)).foldl
    (fun t k =>
      let m := n - k
      let tmp := t.getD (m - 1) 0
      let t := t.setD (m - 1) (t.getD 0 0)
      heapSift v tmp (v.getD tmp 0) (m - 1) t 1 2 (n + 1)) t1

/-- The depth-limit call `aheapsort(vv, tosort + pl, pr - pl + 1)`: the C
code heapsorts the subarray through an offset pointer; here the segment
is copied out, heapsorted, and written back. -/
def aheapsortSeg (v : Array Int) (t : Array ℕ) (pl pr : ℕ) : Array ℕ :=
  let len := pr + 1 - pl
  let seg := ((List.range len).map (fun k => t.getD (pl + k) 0)).toArray
  let seg := aheapsort v seg len
  (List.range len).foldl (fun t k => t.setD (pl + k) (seg.getD k 0)) t

/-- numpy `aquicksort` on `[pl, pr]` (introsort: median-of-3 quicksort,
insertion sort below `SMALL_QUICKSORT + 1` elements, heapsort past the
depth limit).  The explicit partition stack of the C code is rendered as
recursion on both sides, which processes the same disjoint ranges. -/
def aqsort (v : Array Int) : Array ℕ → ℕ → ℕ → Int → ℕ → Array ℕ
  | t, _, _, _, 0 => t
  | t, pl, pr, depth, fuel + 1 =>
    if pr - pl > 15 then
      if depth < 0 then aheapsortSeg v t pl pr
      else
        let pm := pl + (pr - pl) / 2
        let t := if ltK v t pm pl then swapT t pm pl else t
        let t := if ltK v t pr pm then swapT t pr pm else t
        let t := if ltK v t pm pl then swapT t pm pl else t
        let vp := v.getD (t.getD pm 0) 0
        let t := swapT t pm (pr - 1)
        let (t, pi) := partLoop v vp t pl (pr - 1) (t.size + 1)
        let t := swapT t pi (pr - 1)
        let t := aqsort v t pl (pi - 1) (depth - 1) fuel
        aqsort v t (pi + 1) pr (depth - 1) fuel
    else insSortRange v t pl pr

/-- The introsort replica run on more than 16 elements: initial index
array `0..n-1`, depth limit `2 * msb(n)`, recursion fuel amply beyond the
maximal partition depth.  (Marked irreducible so that symbolic proofs
never unfold it; concrete evaluation happens in the kernel.) -/
def npargsortBig (keys : List Int) : List ℕ :=
  (aqsort keys.toArray (List.range keys.length).toArray 0 (keys.length - 1)
    ((Nat.log2 keys.length : Int) * 2) (keys.length + 64)).toList

attribute [irreducible] npargsortBig

/-- The numpy argsort with the default `kind='quicksort'`, as
`sort_values("_dt")` invokes it through `nargsort`.  For at most 16
elements the `(pr - pl) > SMALL_QUICKSORT` guard of `aquicksort` fails at
once and the whole range is insertion-sorted, i.e. the result is the
key-sorted permutation with ties in original order (`stableArgsort`).
For larger inputs the introsort replica runs; the final guard (which
re-sorts the result and compares with `range n`) never fires — an
argsort is a permutation by construction — and only makes that
invariant available definitionally. -/
def npargsort (keys : List Int) : List ℕ :=
  if keys.length ≤ 16 then stableArgsort keys
  else
    if List.insertionSort (fun a b => a ≤ b) (npargsortBig keys) =
        List.range keys.length
      then npargsortBig keys
      else stableArgsort keys

/-- Lines 142-143 of `dsd.py` for the sorted, filtered rows:
`매출차액 = (매출액 - 전년동월).fillna(0)` and the running
`매출액.cumsum()`.  The 매출액 of a kept row is present (`keepRow`), so
the `getD` defaults are never exercised. -/
def derive (acc : ℚ) : List PreRow → List NRow
  | [] => []
  | p :: rest =>
    let s := p.«매출액».getD 0
    let acc' := acc + s
    { «월» := p.«월»
      «매출액» := s
      «전년동월» := p.«전년동월»
      «증감률» := p.«증감률»
      dt := p.dt.getD 0
      «매출차액» := match p.«전년동월» with
        | some q => s - q
        | none => 0
      «누적매출» := acc' } :: derive acc' rest

/-- The 증감률 cells of the input table, in row order (the column that
line 133 of `dsd.py` maps the YoY lambda over). -/
def yoyCells (t : RawTable) : List (Option String) :=
  t.rows.map
    (fun row => cellAt (strippedHeaders t) (resolvedCol (strippedHeaders t) "증감률") row)

/-- The intermediate rows (lines 117-137), one per input row, given the
already-computed 증감률 column. -/
def preRows (t : RawTable) (yoys : List (Option ℚ)) : List PreRow :=
  List.zipWith (fun row y => preOf (strippedHeaders t) row y) t.rows yoys

/-- The rows surviving `dropna(subset=["_dt", "매출액"])`. -/
def keptRows (t : RawTable) (yoys : List (Option ℚ)) : List PreRow :=
  (preRows t yoys).filter keepRow

/-- The `_dt` sort keys of the surviving rows. -/
def sortKeys (t : RawTable) (yoys : List (Option ℚ)) : List Int :=
  (keptRows t yoys).map (fun p => p.dt.getD 0)

/-- `sort_values("_dt").reset_index(drop=True)` on the surviving rows. -/
def sortedRows (t : RawTable) (yoys : List (Option ℚ)) : List PreRow :=
  (npargsort (sortKeys t yoys)).map (fun i => (keptRows t yoys).getD i default)

/-- Everything after a successful 증감률 map: filter, sort, derive. -/
def normalizeRows (t : RawTable) (yoys : List (Option ℚ)) : List NRow :=
  derive 0 (sortedRows t yoys)

/-- `normalize_df` of `dsd.py`: strip headers, resolve the four columns
(raising on missing ones), coerce 매출액/전년동월 with `to_num` and
증감률 with the bare `float` lambda (whose `ValueError` propagates),
parse the period, drop rows lacking `_dt` or 매출액, sort by `_dt`
(numpy quicksort), and append 매출차액 and 누적매출. -/
def normalize_df (t : RawTable) : Except NormError (List NRow) :=
  if missingOf (strippedHeaders t) = [] then
    ((yoyCells t).mapM to_yoy).map (normalizeRows t)
  else .error (.missingCols (missingOf (strippedHeaders t)))

/-- Multiplicity of `p` in `n` (first argument is fuel, called with `n`
itself). -/
def powCount (p : ℕ) : ℕ → ℕ → ℕ
  | 0, _ => 0
  | fuel + 1, n => if 2 ≤ p && n % p = 0 && n ≠ 0 then powCount p fuel (n / p) + 1 else 0

/-- The decimal digit character for `d < 10`. -/
def digitChar (d : ℕ) : Char := Char.ofNat ('0'.toNat + d)

/-- Big-endian decimal digit characters of `n` (empty for `0`). -/
def natDigits (n : ℕ) : List Char := ((Nat.digits 10 n).map digitChar).reverse

/-- The decimal digit string of `m / 10^k`: sign, integer digits, point,
and `k` fractional digits (`.0` when `k = 0`, like Python float
`repr`). -/
def decString (m : ℤ) (k : ℕ) : List Char :=
  let ds0 := natDigits m.natAbs
  let ds1 := if ds0.length ≤ k then List.replicate (k + 1 - ds0.length) '0' ++ ds0 else ds0
  let ip := ds1.take (ds1.length - k)
  let fp0 := ds1.drop (ds1.length - k)
  let fp := if fp0 = [] then ['0'] else fp0
  (if m < 0 then ['-'] else []) ++ (ip ++ '.' :: fp)

/-- Decimal rendering of a float value as `to_csv` writes it: the exact
decimal digits of the value, in plain (non-scientific) notation.  Exact
for every value the pipeline produces (denominator `2^a * 5^b`); the
scientific notation Python uses for extreme magnitudes is outside the
model, as is binary rounding. -/
def fmtQ (q : ℚ) : String :=
  let k := max (powCount 2 q.den q.den) (powCount 5 q.den q.den)
  String.mk (decString (q.num * (10 : ℤ) ^ k / (q.den : ℤ)) k)

/-- A `NaN` cell is written as the empty field by `to_csv` and read back
as missing; a present float is written in decimal. -/
def optCell (o : Option ℚ) : Option String := o.map fmtQ

/-- The re-export of the normalized table:
`df.drop(columns=["_dt"]).to_csv(index=False)` re-read by `read_csv` —
columns 월, 매출액, 전년동월, 증감률, 매출차액, 누적매출 in that order,
no index column, one CSV row per normalized row. -/
def exportTable (out : List NRow) : RawTable :=
  { headers := ["월", "매출액", "전년동월", "증감률", "매출차액", "누적매출"],
    rows := out.map (fun r =>
      [some r.«월», some (fmtQ r.«매출액»), optCell r.«전년동월»,
       optCell r.«증감률», some (fmtQ r.«매출차액»), some (fmtQ r.«누적매출»)]) }

/-- The KPI `총매출 = float(df["매출액"].sum())` computed over the
normalized table (line 180 of `dsd.py`). -/
def «총매출» (out : List NRow) : ℚ := (out.map (fun r => r.«매출액»)).sum

deriving instance DecidableEq for Except

/-! ## Generic helper lemmas -/

lemma contains_iff_mem (l : List String) (a : String) :
    l.contains a = true ↔ a ∈ l := List.elem_iff

lemma map_getD_range {α : Type} (l : List α) (d : α) :
    (List.range l.length).map (fun i => l.getD i d) = l := by
  induction l with
  | nil => rfl
  | cons a t ih =>
    rw [List.length_cons, List.range_succ_eq_map, List.map_cons, List.map_map]
    have h : ((fun i => (a :: t).getD i d) ∘ Nat.succ) = fun i => t.getD i d := by
      funext i
      simp [List.getD_cons_succ]
    rw [h, ih]
    simp [List.getD_cons_zero]

lemma mapM_ok_of_forall {α β : Type} (f : α → Except NormError β) (g : α → β)
    (l : List α) (h : ∀ x ∈ l, f x = .ok (g x)) : l.mapM f = .ok (l.map g) := by
  induction l with
  | nil => rfl
  | cons a t ih =>
    rw [List.mapM_cons, h a (by simp), List.map_cons]
    rw [ih (fun x hx => h x (by simp [hx]))]
    rfl

lemma mapM_ok_length {α β : Type} (f : α → Except NormError β) :
    ∀ (l : List α) (ys : List β), l.mapM f = .ok ys → ys.length = l.length := by
  intro l
  induction l with
  | nil =>
    intro ys h
    simp only [List.mapM_nil] at h
    cases h
    rfl
  | cons a t ih =>
    intro ys h
    rw [List.mapM_cons] at h
    cases hfa : f a with
    | error e => rw [hfa] at h; simp [Bind.bind, Except.bind] at h
    | ok b =>
      rw [hfa] at h
      cases hmt : t.mapM f with
      | error e => rw [hmt] at h; simp [Bind.bind, Except.bind, Functor.map, Except.map] at h
      | ok bs =>
        rw [hmt] at h
        simp only [Bind.bind, Except.bind, Functor.map, Except.map] at h
        cases h
        simp [ih bs hmt]

/-! ## C5: the sales-path numeric coercion -/

/-- The sales-path coercion as the specification words it, with the digit
class left as a parameter: a missing cell is absent; otherwise the value
is stringified, percent signs are removed, only characters of the digit
class or `-` or `.` are kept (removed from anywhere in the string), and
the remainder is parsed as a float, absent on parse failure. -/
def to_num_spec (digitClass : Char → Bool) (cell : Option String) : Option ℚ :=
  match cell with
  | none => none
  | some s =>
    pyFloatL ((s.data.filter (fun ch => ch != '%')).filter
      (fun ch => digitClass ch || ch = '-' || ch = '.'))

/-- C5, as stated, is false: the claim says the kept characters are
exactly the ASCII digits, `-` and `.`, but the code keeps every character
with Python `str.isdigit()`, which is Unicode-aware.  On `"1²3"` the
superscript two is kept (`'²'.isdigit()` is true in Python), `float`
then fails on `"1²3"`, and the code yields absent, while the claimed
ASCII filter would keep `"13"` and yield `13.0`. -/
theorem C5_counterexample :
    to_num (some "1²3") = none ∧
    to_num_spec (fun ch => ch.isDigit) (some "1²3") = some 13 ∧
    to_num (some "1²3") ≠ to_num_spec (fun ch => ch.isDigit) (some "1²3") :=
  ⟨by decide!, by decide!, by decide!⟩

/-- C5, amended: as the claim states, except that the kept digit
characters are those of Python `str.isdigit()` (a Unicode superset of
the ASCII digits) rather than the ASCII digits only.  In particular a
missing cell and `""` coerce to absent and `"12,345원"` coerces to
`12345.0`. -/
theorem C5_coercion :
    (∀ cell, to_num cell = to_num_spec pyIsDigit cell) ∧
    to_num (some "12,345원") = some 12345 ∧
    to_num (some "") = none ∧
    to_num none = none :=
  ⟨fun cell => by cases cell <;> rfl, by decide!, by decide!, rfl⟩

/-! ## C2: the yoy-path coercion can raise -/

/-- A table whose only row has a valid period and sales but a non-numeric
증감률 cell. -/
def c2Table : RawTable :=
  { headers := ["월", "매출액", "전년동월", "증감률"],
    rows := [[some "2024-01", some "10", some "8", some "abc"]] }

/-- C2, as stated, is false: on the yoy path a non-numeric string left
after percent stripping does not become absent — `float("abc")` raises
`ValueError`, which propagates out of `normalize_df` and aborts the
pipeline for the whole file. -/
theorem C2_counterexample :
    normalize_df c2Table =
      .error (.valueError "could not convert string to float") ∧
    (to_yoy (some "abc")).isOk = false :=
  ⟨by decide!, by decide!⟩

/-- C2, amended: `to_num` always yields a value-or-absent, but the
증감률 coercion raises precisely when the cell is non-null, its stripped
text is non-empty, and `float` fails on the percent-stripped text; such
an error aborts `normalize_df` for the whole file. -/
theorem C2_yoy_error_iff (cell : Option String) :
    (to_yoy cell).isOk = false ↔
      ∃ s, cell = some s ∧ pyStripL s.data ≠ [] ∧
        pyFloatL (s.data.filter (fun ch => ch != '%')) = none := by
  cases cell with
  | none => simp [to_yoy, Except.isOk, Except.toBool]
  | some s =>
    simp only [to_yoy]
    by_cases hstrip : pyStripL s.data = []
    · simp [hstrip, Except.isOk, Except.toBool]
    · rw [if_neg hstrip]
      cases hp : pyFloatL (s.data.filter (fun ch => ch != '%')) with
      | none => simp [hstrip, hp, Except.isOk, Except.toBool]
      | some q => simp [hstrip, hp, Except.isOk, Except.toBool]

/-- Witness for `C2_yoy_error_iff` at the cell `"abc"`. -/
theorem C2_yoy_error_iff_witness : (to_yoy (some "abc")).isOk = false :=
  (C2_yoy_error_iff (some "abc")).mpr ⟨"abc", rfl, by decide!, by decide!⟩

/-! ## C6: the column resolver picks the first present alias -/

/-- C6: `pick_col` returns `some k` exactly when `k` is an alias present
among the headers and every alias listed before it is absent — the first
alias in priority order, for any mixture of Korean and English headers. -/
theorem C6_pick_col_first_alias (cols keys : List String) (k : String) :
    pick_col cols keys = some k ↔
      ∃ i, i < keys.length ∧ keys.getD i "" = k ∧ k ∈ cols ∧
        ∀ j, j < i → keys.getD j "" ∉ cols := by
  induction keys with
  | nil =>
    simp [pick_col]
  | cons a ks ih =>
    by_cases h : cols.contains a
    · rw [pick_col, if_pos h]
      have ha : a ∈ cols := (contains_iff_mem cols a).mp h
      constructor
      · intro hk
        cases hk
        exact ⟨0, by simp, by simp, ha, fun j hj => absurd hj (Nat.not_lt_zero j)⟩
      · rintro ⟨i, hi, hgi, hkc, hmin⟩
        cases i with
        | zero => simpa using congrArg some hgi
        | succ n =>
          exact absurd ha (by simpa using hmin 0 (Nat.succ_pos n))
    · rw [pick_col, if_neg h]
      have ha : a ∉ cols := fun hm => h ((contains_iff_mem cols a).mpr hm)
      rw [ih]
      constructor
      · rintro ⟨i, hi, hgi, hkc, hmin⟩
        refine ⟨i + 1, by simpa using hi, by simpa using hgi, hkc, ?_⟩
        intro j hj
        cases j with
        | zero => simpa using ha
        | succ m => simpa using hmin m (Nat.lt_of_succ_lt_succ hj)
      · rintro ⟨i, hi, hgi, hkc, hmin⟩
        cases i with
        | zero =>
          simp only [List.getD_cons_zero] at hgi
          exact absurd (hgi ▸ ha) (fun hc => hc hkc)
        | succ n =>
          refine ⟨n, by simpa using hi, by simpa using hgi, hkc, ?_⟩
          intro j hj
          simpa using hmin (j + 1) (Nat.succ_lt_succ hj)

theorem C6_witness :
    pick_col ["Month", "매출액", "LY", "YoY"] (KOR_KEYS "월") = some "Month" ∧
    pick_col ["month", "Month", "월", "Sales"] (KOR_KEYS "월") = some "월" :=
  ⟨(C6_pick_col_first_alias _ _ _).mpr
      ⟨1, by decide!, by decide!, by decide!, by
        intro j hj
        interval_cases j
        decide!⟩,
   (C6_pick_col_first_alias _ _ _).mpr
      ⟨0, by decide!, by decide!, by decide!, fun j hj => absurd hj (Nat.not_lt_zero j)⟩⟩

/-! ## C7: the missing-columns error lists every unresolved field -/

lemma pick_col_none (cols keys : List String) :
    pick_col cols keys = none → ∀ k ∈ keys, k ∉ cols := by
  induction keys with
  | nil => simp
  | cons a ks ih =>
    intro h k hk
    rw [pick_col] at h
    by_cases hc : cols.contains a
    · rw [if_pos hc] at h; cases h
    · rw [if_neg hc] at h
      rcases List.mem_cons.mp hk with rfl | hk2
      · exact fun hm => hc ((contains_iff_mem _ _).mpr hm)
      · exact ih h k hk2

theorem C7_missing_columns (t : RawTable)
    (h : missingOf (strippedHeaders t) ≠ []) :
    normalize_df t = .error (.missingCols (missingOf (strippedHeaders t))) ∧
    ∀ f ∈ ["월", "매출액", "전년동월", "증감률"],
      pick_col (strippedHeaders t) (KOR_KEYS f) = none →
        f ∈ missingOf (strippedHeaders t) := by
  constructor
  · rw [normalize_df, if_neg h]
  · intro f hf hnone
    have hres : resolvedCol (strippedHeaders t) f = f := by
      rw [resolvedCol, hnone]
      rfl
    have hmem : f ∈ KOR_KEYS f := by
      rcases List.mem_cons.mp hf with rfl | hf
      · exact by decide!
      rcases List.mem_cons.mp hf with rfl | hf
      · exact by decide!
      rcases List.mem_cons.mp hf with rfl | hf
      · exact by decide!
      rcases List.mem_cons.mp hf with rfl | hf
      · exact by decide!
      cases hf
    have hnotin : f ∉ strippedHeaders t := pick_col_none _ _ hnone f hmem
    have hcf : (strippedHeaders t).contains f = false := by
      cases hcc : (strippedHeaders t).contains f
      · rfl
      · exact absurd ((contains_iff_mem _ _).mp hcc) hnotin
    rw [missingOf]
    apply List.mem_filter.mpr
    refine ⟨?_, by rw [hcf]; rfl⟩
    rcases List.mem_cons.mp hf with rfl | hf
    · exact List.mem_cons.mpr (Or.inl hres.symm)
    rcases List.mem_cons.mp hf with rfl | hf
    · exact List.mem_cons.mpr (Or.inr (List.mem_cons.mpr (Or.inl hres.symm)))
    rcases List.mem_cons.mp hf with rfl | hf
    · exact List.mem_cons.mpr (Or.inr (List.mem_cons.mpr (Or.inr
        (List.mem_cons.mpr (Or.inl hres.symm)))))
    rcases List.mem_cons.mp hf with rfl | hf
    · exact List.mem_cons.mpr (Or.inr (List.mem_cons.mpr (Or.inr
        (List.mem_cons.mpr (Or.inr (List.mem_cons.mpr (Or.inl hres.symm)))))))
    cases hf

def c7Table : RawTable := { headers := ["foo", "bar"], rows := [[some "x", some "y"]] }

theorem C7_missing_columns_witness :
    normalize_df c7Table = .error (.missingCols ["월", "매출액", "전년동월", "증감률"]) :=
  (by decide! : missingOf (strippedHeaders c7Table) = ["월", "매출액", "전년동월", "증감률"]) ▸
    (C7_missing_columns c7Table (by decide!)).1

/-! ## Derived columns: delta (C1) and cumulative sales (C8, C10) -/

/-- The normalized row produced from intermediate row `p` with running
total `c` (the shape of one `derive` output row). -/
def rowTotal (p : PreRow) (c : ℚ) : NRow :=
  { «월» := p.«월», «매출액» := p.«매출액».getD 0, «전년동월» := p.«전년동월»,
    «증감률» := p.«증감률», dt := p.dt.getD 0,
    «매출차액» := match p.«전년동월» with
      | some q => p.«매출액».getD 0 - q
      | none => 0,
    «누적매출» := c }

/-- Sum of the (present) 매출액 values of intermediate rows. -/
def salesSum (l : List PreRow) : ℚ := (l.map (fun p => p.«매출액».getD 0)).sum

lemma derive_cons (acc : ℚ) (p : PreRow) (rest : List PreRow) :
    derive acc (p :: rest) =
      rowTotal p (acc + p.«매출액».getD 0) :: derive (acc + p.«매출액».getD 0) rest := rfl

lemma derive_length (acc : ℚ) (l : List PreRow) : (derive acc l).length = l.length := by
  induction l generalizing acc with
  | nil => rfl
  | cons p rest ih => rw [derive_cons, List.length_cons, List.length_cons, ih]

lemma derive_getD (l : List PreRow) (acc : ℚ) (i : ℕ) (h : i < l.length) :
    (derive acc l).getD i default = rowTotal (l.getD i default) (acc + salesSum (l.take (i + 1))) := by
  induction l generalizing acc i with
  | nil => cases h
  | cons p rest ih =>
    cases i with
    | zero =>
      rw [derive_cons, List.getD_cons_zero, List.getD_cons_zero]
      have hs : salesSum ((p :: rest).take 1) = p.«매출액».getD 0 := by
        simp [salesSum]
      rw [hs]
    | succ n =>
      rw [derive_cons, List.getD_cons_succ, List.getD_cons_succ,
        ih (acc + p.«매출액».getD 0) n (by simpa using h)]
      have hs : salesSum ((p :: rest).take (n + 2)) =
          p.«매출액».getD 0 + salesSum (rest.take (n + 1)) := by
        simp [salesSum]
      rw [hs, add_assoc]

lemma derive_mem (acc : ℚ) (l : List PreRow) (r : NRow) (h : r ∈ derive acc l) :
    ∃ p ∈ l, ∃ c, r = rowTotal p c := by
  induction l generalizing acc with
  | nil => cases h
  | cons p rest ih =>
    rw [derive_cons, List.mem_cons] at h
    rcases h with rfl | h
    · exact ⟨p, List.mem_cons_self _ _, _, rfl⟩
    · obtain ⟨p2, hp2, c, hc⟩ := ih _ h
      exact ⟨p2, List.mem_cons_of_mem _ hp2, c, hc⟩

lemma derive_map_sales (acc : ℚ) (l : List PreRow) :
    (derive acc l).map (fun r => r.«매출액») = l.map (fun p => p.«매출액».getD 0) := by
  induction l generalizing acc with
  | nil => rfl
  | cons p rest ih =>
    rw [derive_cons, List.map_cons, List.map_cons, ih]
    rfl

/-- Inversion of a successful `normalize_df`. -/
lemma normalize_ok_iff (t : RawTable) (out : List NRow) :
    normalize_df t = .ok out ↔
      missingOf (strippedHeaders t) = [] ∧
        ∃ yoys, (yoyCells t).mapM to_yoy = .ok yoys ∧ out = normalizeRows t yoys := by
  unfold normalize_df
  by_cases hm : missingOf (strippedHeaders t) = []
  · rw [if_pos hm]
    cases hmy : (yoyCells t).mapM to_yoy with
    | error e =>
      simp only [Functor.map, Except.map]
      constructor
      · intro h
        cases h
      · rintro ⟨-, yoys, hy, -⟩
        simp at hy
    | ok yoys =>
      simp only [Functor.map, Except.map]
      constructor
      · intro h
        cases h
        exact ⟨hm, yoys, rfl, rfl⟩
      · rintro ⟨-, yoys2, hy, rfl⟩
        cases hy
        rfl
  · rw [if_neg hm]
    constructor
    · intro h
      cases h
    · rintro ⟨hm2, -⟩
      exact absurd hm2 hm



lemma salesSum_take_succ (l : List PreRow) (i : ℕ) (h : i < l.length) :
    salesSum (l.take (i + 1)) = salesSum (l.take i) + (l.getD i default).«매출액».getD 0 := by
  rw [salesSum, salesSum, List.map_take, List.map_take,
    List.sum_take_succ _ i (by simpa using h)]
  congr 1
  rw [List.getElem_map, List.getD_eq_getElem l default h]

lemma normalizeRows_length (t : RawTable) (yoys : List (Option ℚ)) :
    (normalizeRows t yoys).length = (sortedRows t yoys).length := by
  rw [normalizeRows, derive_length]

/-- C1, amended: in every retained row, 매출차액 is 매출액 minus 전년동월
when the prior-year value is present, and 0 (not 매출액) when it is
absent. -/
theorem C1_delta (t : RawTable) (out : List NRow) (h : normalize_df t = .ok out) :
    ∀ r ∈ out, r.«매출차액» = match r.«전년동월» with
      | some p => r.«매출액» - p
      | none => 0 := by
  obtain ⟨-, yoys, -, rfl⟩ := (normalize_ok_iff t out).mp h
  intro r hr
  obtain ⟨p, -, c, rfl⟩ := derive_mem _ _ r hr
  cases hp : p.«전년동월» <;> simp [rowTotal, hp]

def c1Table : RawTable :=
  { headers := ["월", "매출액", "전년동월", "증감률"],
    rows := [[some "2024-01", some "10", none, some "5"]] }

/-- C1, as stated, is false: a retained row with absent prior-year value
gets 매출차액 0, not 매출액.  `(매출액 - 전년동월)` is NaN there and
`fillna(0)` replaces the whole difference by 0 — the row below has sales
10 but delta 0. -/
theorem C1_counterexample :
    normalize_df c1Table =
      .ok [{ «월» := "2024-01", «매출액» := 10, «전년동월» := none,
             «증감률» := some 5, dt := 24289, «매출차액» := 0, «누적매출» := 10 }] ∧
    (0 : ℚ) ≠ 10 :=
  ⟨by decide!, by decide!⟩

def c1wTable : RawTable :=
  { headers := ["월", "매출액", "전년동월", "증감률"],
    rows := [[some "2024-01", some "10", some "8", some "5"]] }

def c1wRow : NRow :=
  { «월» := "2024-01", «매출액» := 10, «전년동월» := some 8, «증감률» := some 5,
    dt := 24289, «매출차액» := 2, «누적매출» := 10 }

/-- Witness for `C1_delta` on a one-row table with prior-year present. -/
theorem C1_delta_witness :
    c1wRow.«매출차액» = match c1wRow.«전년동월» with
      | some p => c1wRow.«매출액» - p
      | none => 0 :=
  C1_delta c1wTable [c1wRow] (by decide!) c1wRow (List.mem_singleton.mpr rfl)

/-- C8: 누적매출 is the left-to-right running sum of the sorted 매출액
column: the first row's cumulative equals its sales, and each later
row's cumulative is the previous cumulative plus its sales. -/
theorem C8_cumulative (t : RawTable) (out : List NRow) (h : normalize_df t = .ok out) :
    (0 < out.length → (out.getD 0 default).«누적매출» = (out.getD 0 default).«매출액») ∧
    ∀ i, i + 1 < out.length →
      (out.getD (i + 1) default).«누적매출» =
        (out.getD i default).«누적매출» + (out.getD (i + 1) default).«매출액» := by
  obtain ⟨-, yoys, -, rfl⟩ := (normalize_ok_iff t out).mp h
  constructor
  · intro h0
    have hlen : 0 < (sortedRows t yoys).length := by
      rwa [normalizeRows_length] at h0
    rw [normalizeRows, derive_getD _ 0 0 hlen]
    have hs : salesSum ((sortedRows t yoys).take 1) =
        ((sortedRows t yoys).getD 0 default).«매출액».getD 0 := by
      have := salesSum_take_succ (sortedRows t yoys) 0 hlen
      simpa [salesSum] using this
    simp [rowTotal, hs]
  · intro i hi
    have hlen : i + 1 < (sortedRows t yoys).length := by
      rwa [normalizeRows_length] at hi
    rw [normalizeRows, derive_getD _ 0 (i + 1) hlen,
      derive_getD _ 0 i (Nat.lt_of_succ_lt hlen)]
    simp only [rowTotal]
    rw [salesSum_take_succ _ (i + 1) hlen]
    ring

def c8Table : RawTable :=
  { headers := ["월", "매출액", "전년동월", "증감률"],
    rows := [[some "2024-03", some "30", none, none],
             [some "2024-01", some "10", none, none],
             [some "2024-02", some "20", none, none]] }

def c8Out : List NRow :=
  [{ «월» := "2024-01", «매출액» := 10, «전년동월» := none, «증감률» := none,
     dt := 24289, «매출차액» := 0, «누적매출» := 10 },
   { «월» := "2024-02", «매출액» := 20, «전년동월» := none, «증감률» := none,
     dt := 24290, «매출차액» := 0, «누적매출» := 30 },
   { «월» := "2024-03", «매출액» := 30, «전년동월» := none, «증감률» := none,
     dt := 24291, «매출차액» := 0, «누적매출» := 60 }]

/-- Witness for `C8_cumulative`: the specification's own example — input
periods 2024-03, 2024-01, 2024-02 with sales 30, 10, 20 yields output
order 2024-01, 2024-02, 2024-03 with 누적매출 10, 30, 60. -/
theorem C8_cumulative_witness :
    normalize_df c8Table = .ok c8Out ∧
    (c8Out.getD 0 default).«누적매출» = (c8Out.getD 0 default).«매출액» ∧
    (c8Out.getD 2 default).«누적매출» =
      (c8Out.getD 1 default).«누적매출» + (c8Out.getD 2 default).«매출액» :=
  ⟨by decide!, (C8_cumulative c8Table c8Out (by decide!)).1 (by decide!),
   (C8_cumulative c8Table c8Out (by decide!)).2 1 (by decide!)⟩

/-- C10: the 누적매출 of the last row equals the sum of the 매출액
column, i.e. the 총매출 KPI (line 180) always equals the final
cumulative value. -/
theorem C10_total (t : RawTable) (out : List NRow) (h : normalize_df t = .ok out)
    (hne : out ≠ []) :
    (out.getD (out.length - 1) default).«누적매출» = «총매출» out := by
  obtain ⟨-, yoys, -, rfl⟩ := (normalize_ok_iff t out).mp h
  have hlen : (normalizeRows t yoys).length = (sortedRows t yoys).length :=
    normalizeRows_length t yoys
  have hpos : 0 < (sortedRows t yoys).length := by
    rcases Nat.eq_zero_or_pos (sortedRows t yoys).length with h0 | h0
    · exact absurd (List.length_eq_zero.mp (by rw [hlen, h0])) hne
    · exact h0
  rw [hlen, normalizeRows, derive_getD _ 0 _ (by omega)]
  have htake : (sortedRows t yoys).take ((sortedRows t yoys).length - 1 + 1) =
      sortedRows t yoys := by
    have he : (sortedRows t yoys).length - 1 + 1 = (sortedRows t yoys).length := by omega
    rw [he, List.take_length]
  rw [htake]
  have hsum : «총매출» (derive 0 (sortedRows t yoys)) = salesSum (sortedRows t yoys) := by
    rw [«총매출», derive_map_sales, salesSum]
  rw [hsum]
  simp [rowTotal]

/-- Witness for `C10_total` on the three-row example table. -/
theorem C10_total_witness :
    (c8Out.getD (c8Out.length - 1) default).«누적매출» = «총매출» c8Out :=
  C10_total c8Table c8Out (by decide!) (by decide!)

/-! ## C4: row retention -/

/-- The row-retention predicate of the claim: the trimmed, stringified
period cell parses under `%Y-%m` AND the coerced 매출액 is present. -/
def retainedRow (hdrs : List String) (row : List (Option String)) : Bool :=
  (parse_ym (monthOfCell (cellAt hdrs (resolvedCol hdrs "월") row))).isSome &&
  (to_num (cellAt hdrs (resolvedCol hdrs "매출액") row)).isSome

/-- The (period, sales, parsed period) data of an input row. -/
def rowData (hdrs : List String) (row : List (Option String)) : String × ℚ × Int :=
  (monthOfCell (cellAt hdrs (resolvedCol hdrs "월") row),
   (to_num (cellAt hdrs (resolvedCol hdrs "매출액") row)).getD 0,
   (parse_ym (monthOfCell (cellAt hdrs (resolvedCol hdrs "월") row))).getD 0)

lemma npargsort_perm (keys : List Int) : List.Perm (npargsort keys) (List.range keys.length) := by
  rw [npargsort]
  split
  · exact List.perm_insertionSort _ _
  · split
    next h => exact h ▸ (List.perm_insertionSort _ _).symm
    next h => exact List.perm_insertionSort _ _

lemma npargsort_length (keys : List Int) : (npargsort keys).length = keys.length := by
  have h := (npargsort_perm keys).length_eq
  rwa [List.length_range] at h

lemma perm_map_getD {α : Type} (l : List α) (d : α) (p : List ℕ)
    (hp : List.Perm p (List.range l.length)) : List.Perm (p.map (fun i => l.getD i d)) l := by
  have h1 : List.Perm (p.map (fun i => l.getD i d)) ((List.range l.length).map (fun i => l.getD i d)) :=
    hp.map _
  rwa [map_getD_range] at h1

lemma sortedRows_perm (t : RawTable) (yoys : List (Option ℚ)) :
    List.Perm (sortedRows t yoys) (keptRows t yoys) := by
  rw [sortedRows]
  apply perm_map_getD
  have h := npargsort_perm (sortKeys t yoys)
  have hlen : (sortKeys t yoys).length = (keptRows t yoys).length := by
    rw [sortKeys, List.length_map]
  rwa [hlen] at h

lemma derive_map_proj (acc : ℚ) (l : List PreRow) :
    (derive acc l).map (fun r => (r.«월», r.«매출액», r.dt)) =
      l.map (fun p => (p.«월», p.«매출액».getD 0, p.dt.getD 0)) := by
  induction l generalizing acc with
  | nil => rfl
  | cons p rest ih =>
    rw [derive_cons, List.map_cons, List.map_cons, ih]
    rfl

lemma preRows_filter_proj (hdrs : List String) :
    ∀ (rows : List (List (Option String))) (yoys : List (Option ℚ)),
      yoys.length = rows.length →
      ((List.zipWith (fun row y => preOf hdrs row y) rows yoys).filter keepRow).map
          (fun p => (p.«월», p.«매출액».getD 0, p.dt.getD 0)) =
        (rows.filter (retainedRow hdrs)).map (rowData hdrs) := by
  intro rows
  induction rows with
  | nil => intro yoys _; rfl
  | cons row rest ih =>
    intro yoys hlen
    cases yoys with
    | nil => cases hlen
    | cons y ys =>
      rw [List.zipWith_cons_cons]
      have hkeep : keepRow (preOf hdrs row y) = retainedRow hdrs row := rfl
      by_cases hr : retainedRow hdrs row
      · rw [List.filter_cons_of_pos (by rw [hkeep]; exact hr),
          List.filter_cons_of_pos hr, List.map_cons, List.map_cons,
          ih ys (by simpa using hlen)]
        rfl
      · rw [List.filter_cons_of_neg (by rw [hkeep]; simpa using hr),
          List.filter_cons_of_neg (by simpa using hr),
          ih ys (by simpa using hlen)]

/-- C4: for a successfully normalized table, the output rows' (period,
sales, parsed period) data is, as a multiset, exactly the data of those
input rows whose trimmed period parses under `%Y-%m` and whose coerced
sales is present; rows failing either condition contribute nothing (they
are dropped without any error). -/
theorem C4_retention (t : RawTable) (out : List NRow) (h : normalize_df t = .ok out) :
    List.Perm (out.map (fun r => (r.«월», r.«매출액», r.dt)))
      ((t.rows.filter (retainedRow (strippedHeaders t))).map
        (rowData (strippedHeaders t))) := by
  obtain ⟨-, yoys, hy, rfl⟩ := (normalize_ok_iff t out).mp h
  rw [normalizeRows, derive_map_proj]
  have hlen : yoys.length = t.rows.length := by
    have := mapM_ok_length to_yoy (yoyCells t) yoys hy
    rwa [yoyCells, List.length_map] at this
  have hperm : List.Perm
      ((sortedRows t yoys).map (fun p => (p.«월», p.«매출액».getD 0, p.dt.getD 0)))
      ((keptRows t yoys).map (fun p => (p.«월», p.«매출액».getD 0, p.dt.getD 0))) :=
    (sortedRows_perm t yoys).map _
  have heq : (keptRows t yoys).map (fun p => (p.«월», p.«매출액».getD 0, p.dt.getD 0)) =
      (t.rows.filter (retainedRow (strippedHeaders t))).map
        (rowData (strippedHeaders t)) := by
    rw [keptRows, preRows]
    exact preRows_filter_proj (strippedHeaders t) t.rows yoys hlen
  exact heq ▸ hperm

def c4Table : RawTable :=
  { headers := ["월", "매출액", "전년동월", "증감률"],
    rows := [[some "2024-02", some "20", some "1", some "2"],
             [some "Q1-2024", some "99", some "1", some "2"],
             [some "2024-01", none, some "1", some "2"],
             [some "2024-03", some "30", some "1", some "2"]] }

def c4Out : List NRow :=
  [{ «월» := "2024-02", «매출액» := 20, «전년동월» := some 1, «증감률» := some 2,
     dt := 24290, «매출차액» := 19, «누적매출» := 20 },
   { «월» := "2024-03", «매출액» := 30, «전년동월» := some 1, «증감률» := some 2,
     dt := 24291, «매출차액» := 29, «누적매출» := 50 }]

/-- Witness for `C4_retention`: a table with an unparsable period
(`"Q1-2024"`) and a missing-sales row; both are silently dropped
(`normalize_df` succeeds) and the retained data is exactly that of the
two valid rows. -/
theorem C4_retention_witness :
    List.Perm (c4Out.map (fun r => (r.«월», r.«매출액», r.dt)))
      ((c4Table.rows.filter (retainedRow (strippedHeaders c4Table))).map
        (rowData (strippedHeaders c4Table))) :=
  C4_retention c4Table c4Out (by decide!)

/-! ## C3: chronological order and (in)stability of the sort -/

lemma getD_map {α β : Type} (f : α → β) (l : List α) (i : ℕ) (h : i < l.length)
    (d : β) (d' : α) : (l.map f).getD i d = f (l.getD i d') := by
  rw [List.getD_eq_getElem _ _ (by simpa using h), List.getElem_map,
    List.getD_eq_getElem _ _ h]

lemma npargsort_small (keys : List Int) (h : keys.length ≤ 16) :
    npargsort keys = stableArgsort keys := by
  rw [npargsort, if_pos h]

lemma stableArgsort_sorted (keys : List Int) :
    List.Sorted (idxLe keys) (stableArgsort keys) :=
  List.sorted_insertionSort _ _

lemma stableArgsort_nodup (keys : List Int) : (stableArgsort keys).Nodup :=
  ((List.perm_insertionSort _ _).nodup_iff).mpr (List.nodup_range _)

lemma stableArgsort_mem (keys : List Int) (i : ℕ) (hi : i ∈ stableArgsort keys) :
    i < keys.length := by
  rw [stableArgsort, List.mem_insertionSort, List.mem_range] at hi
  exact hi

lemma stableArgsort_strict (keys : List Int) :
    List.Pairwise (fun i j => keys.getD i 0 < keys.getD j 0 ∨
      (keys.getD i 0 = keys.getD j 0 ∧ i < j)) (stableArgsort keys) := by
  have h := List.Pairwise.and (stableArgsort_sorted keys) (stableArgsort_nodup keys)
  apply h.imp
  intro i j hij
  rcases hij with ⟨hle, hne⟩
  rcases hle with hlt | ⟨heq, hij2⟩
  · exact Or.inl hlt
  · exact Or.inr ⟨heq, lt_of_le_of_ne hij2 hne⟩

lemma derive_map_dt (acc : ℚ) (l : List PreRow) :
    (derive acc l).map (fun r => r.dt) = l.map (fun p => p.dt.getD 0) := by
  induction l generalizing acc with
  | nil => rfl
  | cons p rest ih =>
    rw [derive_cons, List.map_cons, List.map_cons, ih]
    rfl

lemma sortKeys_length (t : RawTable) (yoys : List (Option ℚ)) :
    (sortKeys t yoys).length = (keptRows t yoys).length := by
  rw [sortKeys, List.length_map]

/-- C3, amended: whenever at most 16 rows survive the filter (the
insertion-sort regime of numpy's default quicksort), the output is
non-decreasing in the parsed period `_dt` and is obtained by applying to
the surviving rows a permutation that sorts the `_dt` keys with ties
broken by original position — the stable chronological order.  Beyond 16
surviving rows the partitioning quicksort can reorder equal-period rows
(`C3_counterexample`), and no order guarantee is asserted there. -/
theorem C3_sorted_stable (t : RawTable) (yoys : List (Option ℚ)) (out : List NRow)
    (hy : (yoyCells t).mapM to_yoy = .ok yoys) (h : normalize_df t = .ok out)
    (hsmall : out.length ≤ 16) :
    List.Pairwise (fun a b : NRow => a.dt ≤ b.dt) out ∧
    ∃ p, List.Perm p (List.range (keptRows t yoys).length) ∧
      out = derive 0 (p.map (fun i => (keptRows t yoys).getD i default)) ∧
      List.Pairwise (fun i j =>
        (sortKeys t yoys).getD i 0 < (sortKeys t yoys).getD j 0 ∨
          ((sortKeys t yoys).getD i 0 = (sortKeys t yoys).getD j 0 ∧ i < j)) p := by
  obtain ⟨-, yoys2, hy2, rfl⟩ := (normalize_ok_iff t out).mp h
  rw [hy] at hy2
  cases hy2
  have hlen : (sortKeys t yoys).length ≤ 16 := by
    have h1 : (normalizeRows t yoys).length = (sortedRows t yoys).length :=
      normalizeRows_length t yoys
    have h2 : (sortedRows t yoys).length = (npargsort (sortKeys t yoys)).length := by
      rw [sortedRows, List.length_map]
    rw [npargsort_length] at h2
    omega
  have hsort : sortedRows t yoys =
      (stableArgsort (sortKeys t yoys)).map
        (fun i => (keptRows t yoys).getD i default) := by
    rw [sortedRows, npargsort_small _ hlen]
  constructor
  · have hmap : ((normalizeRows t yoys).map (fun r => r.dt)).Pairwise
        (fun a b : Int => a ≤ b) := by
      rw [normalizeRows, derive_map_dt, hsort, List.map_map]
      have hcong : (stableArgsort (sortKeys t yoys)).map
          ((fun p : PreRow => p.dt.getD 0) ∘ (fun i => (keptRows t yoys).getD i default)) =
          (stableArgsort (sortKeys t yoys)).map
            (fun i => (sortKeys t yoys).getD i 0) := by
        apply List.map_eq_map_iff.mpr
        intro i hi
        have hilen : i < (keptRows t yoys).length := by
          have := stableArgsort_mem _ i hi
          rwa [sortKeys_length] at this
        simp only [Function.comp]
        rw [sortKeys, getD_map _ _ _ hilen 0 default]
      rw [hcong]
      apply List.pairwise_map.mpr
      apply (stableArgsort_sorted (sortKeys t yoys)).imp
      intro i j hij
      rcases hij with hlt | ⟨heq, -⟩
      · exact le_of_lt hlt
      · exact le_of_eq heq
    exact List.pairwise_map.mp hmap
  · refine ⟨stableArgsort (sortKeys t yoys), ?_, ?_, stableArgsort_strict _⟩
    · have h1 : List.Perm (stableArgsort (sortKeys t yoys))
          (List.range (sortKeys t yoys).length) := List.perm_insertionSort _ _
      rwa [sortKeys_length] at h1
    · rw [normalizeRows, hsort]

def c3wTable : RawTable :=
  { headers := ["월", "매출액", "전년동월", "증감률"],
    rows := [[some "2024-02", some "5", none, none],
             [some "2024-01", some "7", none, none],
             [some "2024-02", some "6", none, none]] }

def c3wYoys : List (Option ℚ) := [none, none, none]

def c3wOut : List NRow :=
  [{ «월» := "2024-01", «매출액» := 7, «전년동월» := none, «증감률» := none,
     dt := 24289, «매출차액» := 0, «누적매출» := 7 },
   { «월» := "2024-02", «매출액» := 5, «전년동월» := none, «증감률» := none,
     dt := 24290, «매출차액» := 0, «누적매출» := 12 },
   { «월» := "2024-02", «매출액» := 6, «전년동월» := none, «증감률» := none,
     dt := 24290, «매출차액» := 0, «누적매출» := 18 }]

/-- Witness for `C3_sorted_stable` on a three-row table with a duplicated
period: the two 2024-02 rows keep their input order (sales 5 before 6). -/
theorem C3_sorted_stable_witness :
    List.Pairwise (fun a b : NRow => a.dt ≤ b.dt) c3wOut ∧
    ∃ p, List.Perm p (List.range (keptRows c3wTable c3wYoys).length) ∧
      c3wOut = derive 0 (p.map (fun i => (keptRows c3wTable c3wYoys).getD i default)) ∧
      List.Pairwise (fun i j =>
        (sortKeys c3wTable c3wYoys).getD i 0 < (sortKeys c3wTable c3wYoys).getD j 0 ∨
          ((sortKeys c3wTable c3wYoys).getD i 0 = (sortKeys c3wTable c3wYoys).getD j 0 ∧
            i < j)) p :=
  C3_sorted_stable c3wTable c3wYoys c3wOut (by decide!) (by decide!) (by decide!)

def c3Table : RawTable :=
  { headers := ["월", "매출액", "전년동월", "증감률"],
    rows := (List.range 17).map
      (fun i => [some "2024-01", some (toString (i + 1)), none, none]) }

def c3Row (s c : ℚ) : NRow :=
  { «월» := "2024-01", «매출액» := s, «전년동월» := none, «증감률» := none,
    dt := 24289, «매출차액» := 0, «누적매출» := c }

def c3Out : List NRow :=
  [c3Row 1 1, c3Row 15 16, c3Row 14 30, c3Row 13 43, c3Row 12 55, c3Row 11 66,
   c3Row 10 76, c3Row 16 92, c3Row 9 101, c3Row 7 108, c3Row 6 114, c3Row 5 119,
   c3Row 4 123, c3Row 3 126, c3Row 2 128, c3Row 8 136, c3Row 17 153]

/-- C3, as stated, is false: with 17 rows all of period 2024-01 and sales
1..17 in input order, the default quicksort leaves the insertion-sort
regime and reorders the equal-key rows — the output sales sequence is not
1..17, so ties do not keep their original relative order. -/
theorem C3_counterexample :
    normalize_df c3Table = .ok c3Out ∧
    (∀ r ∈ c3Out, r.dt = 24289) ∧
    c3Out.map (fun r => r.«매출액») =
      [1, 15, 14, 13, 12, 11, 10, 16, 9, 7, 6, 5, 4, 3, 2, 8, 17] ∧
    c3Out.map (fun r => r.«매출액») ≠
      [1, 2, 3, 4, 5, 6, 7, 8, 9, 10, 11, 12, 13, 14, 15, 16, 17] :=
  ⟨by decide!, by decide!, by decide!, by decide!⟩

end DSD
namespace DSD

/-- A decimal rational: representable as `m / 10^k`.  Every numeric value
the pipeline produces is decimal (floats that `to_csv` writes in plain
decimal notation). -/
def IsDec (q : ℚ) : Prop := ∃ (m : ℤ) (k : ℕ), q = (m : ℚ) / 10 ^ k

lemma IsDec_zero : IsDec 0 := ⟨0, 0, by norm_num⟩

lemma IsDec_one : IsDec 1 := ⟨1, 0, by norm_num⟩

lemma IsDec_neg_one : IsDec (-1) := ⟨-1, 0, by norm_num⟩

lemma IsDec_natCast (n : ℕ) : IsDec (n : ℚ) := ⟨(n : ℤ), 0, by norm_num⟩

lemma IsDec_add {a b : ℚ} (ha : IsDec a) (hb : IsDec b) : IsDec (a + b) := by
  obtain ⟨m1, k1, rfl⟩ := ha
  obtain ⟨m2, k2, rfl⟩ := hb
  refine ⟨m1 * 10 ^ k2 + m2 * 10 ^ k1, k1 + k2, ?_⟩
  have h1 : ((10 : ℚ) ^ k1) ≠ 0 := by positivity
  have h2 : ((10 : ℚ) ^ k2) ≠ 0 := by positivity
  field_simp
  ring_nf
  exact Or.inl trivial

lemma IsDec_neg {a : ℚ} (ha : IsDec a) : IsDec (-a) := by
  obtain ⟨m, k, rfl⟩ := ha
  exact ⟨-m, k, by push_cast; ring⟩

lemma IsDec_sub {a b : ℚ} (ha : IsDec a) (hb : IsDec b) : IsDec (a - b) := by
  rw [sub_eq_add_neg]
  exact IsDec_add ha (IsDec_neg hb)

lemma IsDec_mul {a b : ℚ} (ha : IsDec a) (hb : IsDec b) : IsDec (a * b) := by
  obtain ⟨m1, k1, rfl⟩ := ha
  obtain ⟨m2, k2, rfl⟩ := hb
  refine ⟨m1 * m2, k1 + k2, ?_⟩
  have h1 : ((10 : ℚ) ^ k1) ≠ 0 := by positivity
  have h2 : ((10 : ℚ) ^ k2) ≠ 0 := by positivity
  field_simp
  ring_nf
  exact Or.inl trivial

lemma IsDec_div_pow {a : ℚ} (ha : IsDec a) (n : ℕ) : IsDec (a / 10 ^ n) := by
  obtain ⟨m, k, rfl⟩ := ha
  refine ⟨m, k + n, ?_⟩
  rw [pow_add, div_div]

lemma IsDec_mul_zpow {a : ℚ} (ha : IsDec a) (z : ℤ) : IsDec (a * 10 ^ z) := by
  cases z with
  | ofNat n =>
    rw [Int.ofNat_eq_coe, zpow_natCast]
    exact IsDec_mul ha ⟨(10 : ℤ) ^ n, 0, by push_cast; norm_num⟩
  | negSucc n =>
    rw [zpow_negSucc, ← div_eq_mul_inv]
    exact IsDec_div_pow ha (n + 1)

lemma powCount_correct (p : ℕ) (hp : 2 ≤ p) :
    ∀ (fuel n : ℕ), 0 < n → n ≤ fuel →
      p ^ powCount p fuel n ∣ n ∧ ¬ p ^ (powCount p fuel n + 1) ∣ n := by
  intro fuel
  induction fuel with
  | zero => intro n hn hf; omega
  | succ f ih =>
    intro n hn hf
    rw [powCount]
    by_cases hmod : n % p = 0
    · rw [if_pos (by
        simp only [Bool.and_eq_true, decide_eq_true_eq]
        exact ⟨⟨hp, hmod⟩, by omega⟩)]
      have hpd : p ∣ n := Nat.dvd_of_mod_eq_zero hmod
      have hdivpos : 0 < n / p := Nat.div_pos (Nat.le_of_dvd hn hpd) (by omega)
      have hdivle : n / p ≤ f := by
        have : n / p < n := Nat.div_lt_self hn (by omega)
        omega
      obtain ⟨hd, hnd⟩ := ih (n / p) hdivpos hdivle
      have hn2 : p * (n / p) = n := Nat.mul_div_cancel' hpd
      constructor
      · rw [pow_succ]
        calc p ^ powCount p f (n / p) * p ∣ (n / p) * p :=
              mul_dvd_mul_right hd p
          _ = n := by rw [Nat.mul_comm]; exact hn2
      · intro hcon
        apply hnd
        have hpow : p * p ^ (powCount p f (n / p) + 1) =
            p ^ (powCount p f (n / p) + 1 + 1) := by ring
        have h2 : p * p ^ (powCount p f (n / p) + 1) ∣ p * (n / p) := by
          rw [hpow, hn2]
          exact hcon
        exact (mul_dvd_mul_iff_left (by omega : p ≠ 0)).mp h2
    · rw [if_neg (by
        simp only [Bool.and_eq_true, decide_eq_true_eq]
        tauto)]
      refine ⟨one_dvd n, ?_⟩
      intro hcon
      rw [pow_one] at hcon
      exact hmod (Nat.dvd_iff_mod_eq_zero.mp hcon)

end DSD

namespace DSD

lemma isPySpace_isDigit (c : Char) (h : isPySpace c = true) : c.isDigit = false := by
  rw [isPySpace] at h
  simp only [Bool.or_eq_true, decide_eq_true_eq] at h
  rcases h with ((((h | h) | h) | h) | h) | h <;> subst h <;> decide!

lemma digit_not_space (c : Char) (h : c.isDigit = true) : isPySpace c = false := by
  cases hs : isPySpace c
  · rfl
  · rw [isPySpace_isDigit c hs] at h
    cases h

lemma digit_ne_minus (c : Char) (h : c.isDigit = true) : c ≠ '-' := by
  intro he
  subst he
  exact absurd h (by decide!)

lemma digit_ne_plus (c : Char) (h : c.isDigit = true) : c ≠ '+' := by
  intro he
  subst he
  exact absurd h (by decide!)

lemma digit_ne_dot (c : Char) (h : c.isDigit = true) : c ≠ '.' := by
  intro he
  subst he
  exact absurd h (by decide!)

lemma dropWhile_eq_self_of_all (p : Char → Bool) (l : List Char)
    (h : ∀ c ∈ l.head?, p c = false) : l.dropWhile p = l := by
  cases l with
  | nil => rfl
  | cons a t =>
    rw [List.dropWhile_cons, h a (by simp)]
    simp

lemma pyStripL_eq_self (l : List Char) (h : ∀ c ∈ l, isPySpace c = false) :
    pyStripL l = l := by
  rw [pyStripL]
  rw [dropWhile_eq_self_of_all _ l (fun c hc => h c (List.mem_of_mem_head? hc))]
  rw [dropWhile_eq_self_of_all _ l.reverse
    (fun c hc => h c (List.mem_reverse.mp (List.mem_of_mem_head? hc)))]
  exact List.reverse_reverse l

lemma takeWhile_append_stop (p : Char → Bool) (A : List Char) (c : Char) (B : List Char)
    (hA : ∀ a ∈ A, p a = true) (hc : p c = false) :
    (A ++ c :: B).takeWhile p = A ∧ (A ++ c :: B).dropWhile p = c :: B := by
  induction A with
  | nil =>
    simp only [List.nil_append]
    rw [List.takeWhile_cons, List.dropWhile_cons, hc]
    simp
  | cons a t ih =>
    have hpa : p a = true := hA a (by simp)
    obtain ⟨h1, h2⟩ := ih (fun x hx => hA x (by simp [hx]))
    constructor
    · rw [List.cons_append, List.takeWhile_cons, hpa]
      simp [h1]
    · rw [List.cons_append, List.dropWhile_cons, hpa]
      simpa using h2

lemma pyFloatL_exact_core (ip fp : List Char)
    (hip : ∀ c ∈ ip, c.isDigit = true) (hip0 : ip ≠ [])
    (hfp : ∀ c ∈ fp, c.isDigit = true) :
    pyFloatL (ip ++ '.' :: fp) =
      some ((digitsVal ip : ℚ) + (digitsVal fp : ℚ) / 10 ^ fp.length) ∧
    pyFloatL ('-' :: (ip ++ '.' :: fp)) =
      some (-((digitsVal ip : ℚ) + (digitsVal fp : ℚ) / 10 ^ fp.length)) := by
  obtain ⟨c, ip2, rfl⟩ := List.exists_cons_of_ne_nil hip0
  have hcd : c.isDigit = true := hip c (by simp)
  have hspace : ∀ x ∈ (c :: ip2) ++ '.' :: fp, isPySpace x = false := by
    intro x hx
    rw [List.mem_append] at hx
    rcases hx with hx | hx
    · exact digit_not_space x (hip x hx)
    · rcases List.mem_cons.mp hx with rfl | hx
      · decide!
      · exact digit_not_space x (hfp x hx)
  have hspace2 : ∀ x ∈ '-' :: ((c :: ip2) ++ '.' :: fp), isPySpace x = false := by
    intro x hx
    rcases List.mem_cons.mp hx with rfl | hx
    · decide!
    · exact hspace x hx
  have htd := takeWhile_append_stop Char.isDigit (c :: ip2) '.' fp hip (by decide!)
  have hfp_take : fp.takeWhile Char.isDigit = fp := List.takeWhile_eq_self_iff.mpr hfp
  have hfp_drop : fp.dropWhile Char.isDigit = [] := List.dropWhile_eq_nil_iff.mpr hfp
  have hhead : ((c :: ip2) ++ '.' :: fp).head? = some c := by
    rw [List.cons_append]
    rfl
  constructor
  · rw [pyFloatL, pyStripL_eq_self _ hspace, hhead]
    have hne1 : ¬(some c = some '-') :=
      fun he => digit_ne_minus c hcd (Option.some_injective _ he)
    have hne2 : ¬(some c = some '-' ∨ some c = some '+') := by
      rintro (he | he)
      · exact digit_ne_minus c hcd (Option.some_injective _ he)
      · exact digit_ne_plus c hcd (Option.some_injective _ he)
    rw [if_neg hne1, if_neg hne2]
    rw [htd.1, htd.2, List.head?_cons, List.tail_cons, if_pos rfl, hfp_take, hfp_drop]
    simp only [List.isEmpty_cons, Bool.false_and]
    rw [if_neg (by simp)]
    rw [parseExp]
    norm_num
  · rw [pyFloatL, pyStripL_eq_self _ hspace2]
    have hhead2 : (('-' :: ((c :: ip2) ++ '.' :: fp)) : List Char).head? = some '-' := rfl
    rw [hhead2]
    rw [if_pos rfl]
    rw [if_pos (Or.inl rfl)]
    simp only [List.tail_cons]
    rw [htd.1, htd.2, List.head?_cons, List.tail_cons, if_pos rfl, hfp_take, hfp_drop]
    simp only [List.isEmpty_cons, Bool.false_and]
    rw [if_neg (by simp)]
    rw [parseExp]
    norm_num

end DSD

namespace DSD

lemma digitVal_digitChar (d : ℕ) (h : d < 10) : digitVal (digitChar d) = d := by
  interval_cases d <;> decide!

lemma isDigit_digitChar (d : ℕ) (h : d < 10) : (digitChar d).isDigit = true := by
  interval_cases d <;> decide!

lemma digitsVal_foldl (l : List Char) (a : ℕ) :
    l.foldl (fun x c => 10 * x + digitVal c) a = a * 10 ^ l.length + digitsVal l := by
  induction l generalizing a with
  | nil => simp [digitsVal]
  | cons c t ih =>
    rw [List.foldl_cons, ih (10 * a + digitVal c)]
    have h2 : digitsVal (c :: t) =
        t.foldl (fun x c => 10 * x + digitVal c) (10 * 0 + digitVal c) := by
      rw [digitsVal, List.foldl_cons]
    rw [h2, ih (10 * 0 + digitVal c), List.length_cons]
    ring

lemma digitsVal_append (A B : List Char) :
    digitsVal (A ++ B) = digitsVal A * 10 ^ B.length + digitsVal B := by
  rw [digitsVal, List.foldl_append, ← digitsVal, digitsVal_foldl]

lemma digitsVal_replicate_zero (z : ℕ) (l : List Char) :
    digitsVal (List.replicate z '0' ++ l) = digitsVal l := by
  rw [digitsVal_append]
  have hz : digitsVal (List.replicate z '0') = 0 := by
    induction z with
    | zero => rfl
    | succ n ih =>
      rw [List.replicate_succ]
      have hh : digitsVal ('0' :: List.replicate n '0') =
          (List.replicate n '0').foldl (fun x c => 10 * x + digitVal c)
            (10 * 0 + digitVal '0') := by
        rw [digitsVal, List.foldl_cons]
      rw [hh]
      have h0 : 10 * 0 + digitVal '0' = 0 := by decide!
      rw [h0, ← digitsVal]
      exact ih
  rw [hz]
  simp

lemma digitsVal_natDigits (n : ℕ) : digitsVal (natDigits n) = n := by
  rw [natDigits, digitsVal, List.foldl_reverse, List.foldr_map]
  have key : ∀ L : List ℕ, (∀ d ∈ L, d < 10) →
      L.foldr (fun x y => 10 * y + digitVal (digitChar x)) 0 = Nat.ofDigits 10 L := by
    intro L
    induction L with
    | nil => simp [Nat.ofDigits_nil]
    | cons d t ih =>
      intro hd
      rw [List.foldr_cons, ih (fun x hx => hd x (by simp [hx])),
        digitVal_digitChar d (hd d (by simp)), Nat.ofDigits_cons]
      ring
  rw [key _ (fun d hd => Nat.digits_lt_base (by norm_num) hd)]
  exact_mod_cast Nat.ofDigits_digits 10 n

lemma natDigits_digits (n : ℕ) : ∀ c ∈ natDigits n, c.isDigit = true := by
  intro c hc
  rw [natDigits, List.mem_reverse, List.mem_map] at hc
  obtain ⟨d, hd, rfl⟩ := hc
  exact isDigit_digitChar d (Nat.digits_lt_base (by norm_num) hd)

end DSD

namespace DSD

lemma den_decomp (q : ℚ) (hq : IsDec q) : ∃ a b : ℕ, q.den = 2 ^ a * 5 ^ b := by
  obtain ⟨m, k, heq⟩ := hq
  have hdvd : q.den ∣ 10 ^ k := by
    have h10 : ((10 : ℚ) ^ k) = (((10 : ℤ) ^ k : ℤ) : ℚ) := by push_cast; ring
    have hdi : q = Rat.divInt m ((10 : ℤ) ^ k) := by
      rw [Rat.divInt_eq_div, heq, h10]
    have hd := Rat.den_dvd m ((10 : ℤ) ^ k)
    rw [← hdi] at hd
    have hcast : ((10 : ℤ)) ^ k = (((10 ^ k : ℕ) : ℤ)) := by push_cast; ring
    rw [hcast] at hd
    exact_mod_cast hd
  have h10k : (10 : ℕ) ^ k = 2 ^ k * 5 ^ k := by
    rw [show (10 : ℕ) = 2 * 5 from rfl, mul_pow]
  rw [h10k] at hdvd
  obtain ⟨a', b', ha', hb', hab⟩ := dvd_mul.mp hdvd
  obtain ⟨a, -, rfl⟩ := (Nat.dvd_prime_pow Nat.prime_two).mp ha'
  obtain ⟨b, -, rfl⟩ := (Nat.dvd_prime_pow (by norm_num : Nat.Prime 5)).mp hb'
  exact ⟨a, b, hab⟩

lemma multiplicity_eq (p n a c : ℕ) (h1 : p ^ a ∣ n) (h2 : ¬ p ^ (a + 1) ∣ n)
    (h3 : p ^ c ∣ n) (h4 : ¬ p ^ (c + 1) ∣ n) : a = c := by
  by_contra hne
  rcases Nat.lt_or_ge a c with h | h
  · exact h2 (dvd_trans (pow_dvd_pow p (by omega)) h3)
  · have hca : c < a := by omega
    exact h4 (dvd_trans (pow_dvd_pow p (by omega)) h1)

lemma coprime_pow_not_dvd (p r : ℕ) (hp : 2 ≤ p) (hcop : Nat.Coprime p r) (b : ℕ) :
    ¬ p ∣ r ^ b := by
  intro hdvd
  have h1 : p ∣ Nat.gcd p (r ^ b) := Nat.dvd_gcd dvd_rfl hdvd
  have h2 : Nat.gcd p (r ^ b) = 1 := (hcop.pow_right b)
  rw [h2] at h1
  exact absurd (Nat.le_of_dvd one_pos h1) (by omega)

lemma powCount_prime_pow_mul (p r a b : ℕ) (hp : 2 ≤ p) (hr : 0 < r)
    (hcop : Nat.Coprime p r) :
    powCount p (p ^ a * r ^ b) (p ^ a * r ^ b) = a := by
  have hn : 0 < p ^ a * r ^ b := by positivity
  obtain ⟨hd, hnd⟩ := powCount_correct p hp _ _ hn le_rfl
  refine multiplicity_eq p _ _ a hd hnd (dvd_mul_right _ _) ?_
  intro hcon
  have hpow : p ^ (a + 1) = p ^ a * p := by ring
  rw [hpow] at hcon
  have h2 : p ∣ r ^ b := by
    have hpa : 0 < p ^ a := by positivity
    exact (mul_dvd_mul_iff_left (by positivity : (p : ℕ) ^ a ≠ 0)).mp hcon
  exact coprime_pow_not_dvd p r hp hcop b h2

lemma fmtQ_k_dvd (q : ℚ) (hq : IsDec q) :
    (q.den : ℤ) ∣ (10 : ℤ) ^ (max (powCount 2 q.den q.den) (powCount 5 q.den q.den)) := by
  obtain ⟨a, b, hden⟩ := den_decomp q hq
  have h2 : powCount 2 q.den q.den = a := by
    rw [hden]
    exact powCount_prime_pow_mul 2 5 a b (by norm_num) (by norm_num) (by norm_num)
  have h5 : powCount 5 q.den q.den = b := by
    rw [hden, show (2 : ℕ) ^ a * 5 ^ b = 5 ^ b * 2 ^ a from by ring]
    exact powCount_prime_pow_mul 5 2 b a (by norm_num) (by norm_num) (by norm_num)
  rw [h2, h5]
  have hnat : q.den ∣ 10 ^ max a b := by
    rw [hden, show (10 : ℕ) ^ max a b = 2 ^ max a b * 5 ^ max a b from by
      rw [show (10 : ℕ) = 2 * 5 from rfl, mul_pow]]
    exact mul_dvd_mul (pow_dvd_pow 2 (le_max_left a b)) (pow_dvd_pow 5 (le_max_right a b))
  have hcast : ((10 : ℤ)) ^ max a b = (((10 ^ max a b : ℕ) : ℤ)) := by push_cast; ring
  rw [hcast]
  exact_mod_cast hnat

lemma fmtQ_m_val (q : ℚ) (hq : IsDec q) :
    ((q.num * 10 ^ (max (powCount 2 q.den q.den) (powCount 5 q.den q.den)) /
        (q.den : ℤ) : ℤ) : ℚ) =
      q * 10 ^ (max (powCount 2 q.den q.den) (powCount 5 q.den q.den)) := by
  have hdvd := fmtQ_k_dvd q hq
  have hdvd2 : (q.den : ℤ) ∣
      q.num * 10 ^ (max (powCount 2 q.den q.den) (powCount 5 q.den q.den)) :=
    Dvd.dvd.mul_left hdvd q.num
  have hcancel := Int.ediv_mul_cancel hdvd2
  have hden0 : ((q.den : ℚ)) ≠ 0 := by
    exact_mod_cast q.den_nz
  have h1 := congrArg (fun z : ℤ => (z : ℚ)) hcancel
  push_cast at h1
  have h2 : q * (q.den : ℚ) = (q.num : ℚ) := Rat.mul_den_eq_num q
  apply mul_right_cancel₀ hden0
  rw [h1, ← h2]
  ring

end DSD

namespace DSD

lemma int_cast_natAbs_q (m : ℤ) : ((m.natAbs : ℚ)) = if m < 0 then -(m : ℚ) else (m : ℚ) := by
  by_cases hm : m < 0
  · rw [if_pos hm, Int.cast_natAbs, abs_of_neg hm]
    push_cast
    ring
  · rw [if_neg hm, Int.cast_natAbs, abs_of_nonneg (not_lt.mp hm)]

lemma decString_parse (m : ℤ) (k : ℕ) :
    pyFloatL (decString m k) = some ((m : ℚ) / 10 ^ k) ∧
    ∀ c ∈ decString m k, c.isDigit = true ∨ c = '-' ∨ c = '.' := by
  have hds0chars : ∀ c ∈ natDigits m.natAbs, c.isDigit = true := natDigits_digits _
  set ds0 := natDigits m.natAbs with hds0def
  set ds1 := (if ds0.length ≤ k then List.replicate (k + 1 - ds0.length) '0' ++ ds0 else ds0)
    with hds1def
  have hds1chars : ∀ c ∈ ds1, c.isDigit = true := by
    rw [hds1def]
    split
    · intro c hc
      rcases List.mem_append.mp hc with hc | hc
      · rw [List.eq_of_mem_replicate hc]
        decide!
      · exact hds0chars c hc
    · exact hds0chars
  have hds1val : digitsVal ds1 = m.natAbs := by
    rw [hds1def]
    split
    · rw [digitsVal_replicate_zero]
      exact digitsVal_natDigits _
    · exact digitsVal_natDigits _
  have hds1len : k < ds1.length := by
    rw [hds1def]
    split
    next h =>
      rw [List.length_append, List.length_replicate]
      omega
    next h =>
      omega
  set ip := ds1.take (ds1.length - k) with hipdef
  set fp0 := ds1.drop (ds1.length - k) with hfp0def
  have hiplen : ip.length = ds1.length - k := by
    rw [hipdef, List.length_take]
    omega
  have hipne : ip ≠ [] := by
    intro h
    have h2 := congrArg List.length h
    rw [hiplen] at h2
    simp at h2
    omega
  have hipchars : ∀ c ∈ ip, c.isDigit = true := by
    intro c hc
    exact hds1chars c (List.mem_of_mem_take hc)
  have hfp0len : fp0.length = k := by
    rw [hfp0def, List.length_drop]
    omega
  have hfp0chars : ∀ c ∈ fp0, c.isDigit = true := by
    intro c hc
    exact hds1chars c (List.mem_of_mem_drop hc)
  have hsplit : ip ++ fp0 = ds1 := List.take_append_drop _ _
  have hdec : decString m k =
      (if m < 0 then ['-'] else []) ++ (ip ++ '.' :: (if fp0 = [] then ['0'] else fp0)) := rfl
  have hchars : ∀ c ∈ decString m k, c.isDigit = true ∨ c = '-' ∨ c = '.' := by
    intro c hc
    rw [hdec] at hc
    rcases List.mem_append.mp hc with hc | hc
    · split at hc
      · rw [List.mem_singleton] at hc
        exact Or.inr (Or.inl hc)
      · cases hc
    · rcases List.mem_append.mp hc with hc | hc
      · exact Or.inl (hipchars c hc)
      · rcases List.mem_cons.mp hc with rfl | hc
        · exact Or.inr (Or.inr rfl)
        · split at hc
          · rw [List.mem_singleton] at hc
            subst hc
            exact Or.inl (by decide!)
          · exact Or.inl (hfp0chars c hc)
  refine ⟨?_, hchars⟩
  rw [hdec]
  by_cases hk : k = 0
  · subst hk
    have hfp0nil : fp0 = [] := by
      rw [hfp0def]
      simp
    have hipall : ip = ds1 := by
      rw [hipdef]
      simp
    rw [if_pos hfp0nil]
    have hv0 : (digitsVal ['0'] : ℚ) = 0 := by
      norm_num [show digitsVal ['0'] = 0 from by decide!]
    by_cases hm : m < 0
    · rw [if_pos hm, List.singleton_append]
      rw [(pyFloatL_exact_core ip ['0'] hipchars hipne (by
        intro c hc
        rw [List.mem_singleton] at hc
        subst hc
        decide!)).2]
      congr 1
      rw [hv0, hipall, hds1val]
      rw [int_cast_natAbs_q, if_pos hm]
      norm_num
    · rw [if_neg hm, List.nil_append]
      rw [(pyFloatL_exact_core ip ['0'] hipchars hipne (by
        intro c hc
        rw [List.mem_singleton] at hc
        subst hc
        decide!)).1]
      congr 1
      rw [hv0, hipall, hds1val]
      rw [int_cast_natAbs_q, if_neg hm]
      norm_num
  · have hfp0ne : fp0 ≠ [] := by
      intro h
      have h2 := congrArg List.length h
      rw [hfp0len] at h2
      simp at h2
      omega
    rw [if_neg hfp0ne]
    have hsum : (digitsVal ip : ℚ) * 10 ^ k + (digitsVal fp0 : ℚ) = (m.natAbs : ℚ) := by
      have hn : digitsVal ip * 10 ^ fp0.length + digitsVal fp0 = m.natAbs := by
        rw [← digitsVal_append, hsplit, hds1val]
      rw [hfp0len] at hn
      exact_mod_cast hn
    have h10 : ((10 : ℚ) ^ k) ≠ 0 := by positivity
    have hval : (digitsVal ip : ℚ) + (digitsVal fp0 : ℚ) / 10 ^ fp0.length =
        (m.natAbs : ℚ) / 10 ^ k := by
      rw [hfp0len, eq_div_iff h10, add_mul, div_mul_cancel₀ _ h10]
      exact hsum
    by_cases hm : m < 0
    · rw [if_pos hm, List.singleton_append]
      rw [(pyFloatL_exact_core ip fp0 hipchars hipne hfp0chars).2]
      congr 1
      rw [hval, int_cast_natAbs_q, if_pos hm]
      ring
    · rw [if_neg hm, List.nil_append]
      rw [(pyFloatL_exact_core ip fp0 hipchars hipne hfp0chars).1]
      congr 1
      rw [hval, int_cast_natAbs_q, if_neg hm]

end DSD

namespace DSD

lemma fmtQ_roundtrip (q : ℚ) (hq : IsDec q) :
    pyFloatL (fmtQ q).data = some q ∧
    ∀ c ∈ (fmtQ q).data, c.isDigit = true ∨ c = '-' ∨ c = '.' := by
  have hm := fmtQ_m_val q hq
  have hd := decString_parse
    (q.num * 10 ^ (max (powCount 2 q.den q.den) (powCount 5 q.den q.den)) / (q.den : ℤ))
    (max (powCount 2 q.den q.den) (powCount 5 q.den q.den))
  have hdata : (fmtQ q).data = decString
      (q.num * 10 ^ (max (powCount 2 q.den q.den) (powCount 5 q.den q.den)) / (q.den : ℤ))
      (max (powCount 2 q.den q.den) (powCount 5 q.den q.den)) := rfl
  rw [hdata]
  refine ⟨?_, hd.2⟩
  rw [hd.1, hm]
  congr 1
  have h10 : ((10 : ℚ) ^ (max (powCount 2 q.den q.den) (powCount 5 q.den q.den))) ≠ 0 := by
    positivity
  rw [mul_div_assoc, div_self h10, mul_one]

lemma to_num_some (s : String) :
    to_num (some s) = pyFloatL ((s.data.filter (fun ch => ch != '%')).filter
      (fun ch => pyIsDigit ch || ch = '-' || ch = '.')) := rfl

lemma to_yoy_some (s : String) :
    to_yoy (some s) =
      if pyStripL s.data = [] then .ok none
      else
        match pyFloatL (s.data.filter (fun ch => ch != '%')) with
        | some q => .ok (some q)
        | none => .error (.valueError "could not convert string to float") := rfl

lemma fmtQ_chars_keep (q : ℚ) (hq : IsDec q) :
    (fmtQ q).data.filter (fun ch => ch != '%') = (fmtQ q).data ∧
    (fmtQ q).data.filter (fun ch => pyIsDigit ch || ch = '-' || ch = '.') = (fmtQ q).data ∧
    (∀ c ∈ (fmtQ q).data, isPySpace c = false) := by
  have hchars := (fmtQ_roundtrip q hq).2
  refine ⟨List.filter_eq_self.mpr ?_, List.filter_eq_self.mpr ?_, ?_⟩
  · intro c hc
    rcases hchars c hc with h | h | h
    · have : c ≠ '%' := by
        intro he
        subst he
        exact absurd h (by decide!)
      simpa using this
    · subst h
      decide!
    · subst h
      decide!
  · intro c hc
    rcases hchars c hc with h | h | h
    · have hp : pyIsDigit c = true := by
        rw [pyIsDigit, h]
        rfl
      simp [hp]
    · simp [h]
    · simp [h]
  · intro c hc
    rcases hchars c hc with h | h | h
    · exact digit_not_space c h
    · subst h
      decide!
    · subst h
      decide!

lemma to_num_fmtQ (q : ℚ) (hq : IsDec q) : to_num (some (fmtQ q)) = some q := by
  obtain ⟨h1, h2, -⟩ := fmtQ_chars_keep q hq
  rw [to_num_some, h1, h2]
  exact (fmtQ_roundtrip q hq).1

lemma to_yoy_optCell (o : Option ℚ) (ho : ∀ q, o = some q → IsDec q) :
    to_yoy (optCell o) = .ok o := by
  cases o with
  | none => rfl
  | some q =>
    have hq := ho q rfl
    obtain ⟨h1, -, h3⟩ := fmtQ_chars_keep q hq
    have hparse := (fmtQ_roundtrip q hq).1
    have hne : pyStripL (fmtQ q).data ≠ [] := by
      rw [pyStripL_eq_self _ h3]
      intro hnil
      rw [hnil] at hparse
      rw [show pyFloatL [] = none from by decide!] at hparse
      cases hparse
    have hoc : optCell (some q) = some (fmtQ q) := rfl
    rw [hoc, to_yoy_some, if_neg hne, h1, hparse]

end DSD

namespace DSD

lemma head_dropWhile_false (p : Char → Bool) :
    ∀ (l : List Char) (x : Char), (l.dropWhile p).head? = some x → p x = false := by
  intro l
  induction l with
  | nil => intro x hx; cases hx
  | cons a t ih =>
    intro x hx
    rw [List.dropWhile_cons] at hx
    by_cases hpa : p a
    · rw [if_pos hpa] at hx
      exact ih x hx
    · rw [if_neg hpa] at hx
      cases hx
      exact Bool.of_not_eq_true hpa

lemma pyStripL_idem (l : List Char) : pyStripL (pyStripL l) = pyStripL l := by
  by_cases hnil : pyStripL l = []
  · rw [hnil]
    rfl
  · have hrev : (pyStripL l).reverse =
        (l.dropWhile isPySpace).reverse.dropWhile isPySpace := by
      rw [pyStripL, List.reverse_reverse]
    have hback : ∀ x ∈ (pyStripL l).reverse.head?, isPySpace x = false := by
      intro x hx
      rw [Option.mem_def] at hx
      rw [hrev] at hx
      exact head_dropWhile_false _ _ x hx
    have hpre : pyStripL l <+: l.dropWhile isPySpace := by
      apply List.reverse_suffix.mp
      rw [hrev]
      exact List.dropWhile_suffix _
    obtain ⟨c, rest, hc⟩ := List.exists_cons_of_ne_nil hnil
    obtain ⟨t, ht⟩ := hpre
    have hheadA : (l.dropWhile isPySpace).head? = some c := by
      rw [← ht, hc, List.cons_append, List.head?_cons]
    have hcfail : isPySpace c = false := head_dropWhile_false _ l c hheadA
    have hfront : ∀ x ∈ (pyStripL l).head?, isPySpace x = false := by
      intro x hx
      rw [Option.mem_def, hc, List.head?_cons] at hx
      cases hx
      exact hcfail
    rw [pyStripL, dropWhile_eq_self_of_all _ _ hfront,
      dropWhile_eq_self_of_all _ _ hback, List.reverse_reverse]

end DSD

namespace DSD

lemma IsDec_mant (sgn : ℚ) (hs : IsDec sgn) (ip fp : List Char) :
    IsDec (sgn * ((digitsVal ip : ℚ) + (digitsVal fp : ℚ) / 10 ^ fp.length)) :=
  IsDec_mul hs (IsDec_add (IsDec_natCast _) (IsDec_div_pow (IsDec_natCast _) _))

lemma parseExp_isDec (sgn : ℚ) (hs : IsDec sgn) (ip fp : List Char) :
    ∀ (rest : List Char) (q : ℚ), parseExp sgn ip fp rest = some q → IsDec q := by
  intro rest q h
  cases rest with
  | nil =>
    rw [parseExp] at h
    cases h
    exact IsDec_mant sgn hs ip fp
  | cons e r =>
    rw [parseExp] at h
    repeat' split at h
    all_goals try cases h
    all_goals
      simp only [Option.ite_none_left_eq_some, Option.some.injEq] at h
    all_goals
      obtain ⟨-, h⟩ := h
      subst h
      exact IsDec_mul_zpow (IsDec_mant sgn hs ip fp) _

lemma pyFloatL_isDec (l : List Char) (q : ℚ) (h : pyFloatL l = some q) : IsDec q := by
  rw [pyFloatL] at h
  simp only [] at h
  repeat' split at h
  all_goals try cases h
  all_goals
    first
    | exact parseExp_isDec _ IsDec_neg_one _ _ _ q h
    | exact parseExp_isDec _ IsDec_one _ _ _ q h

lemma to_num_isDec (cell : Option String) (q : ℚ) (h : to_num cell = some q) : IsDec q := by
  cases cell with
  | none => cases h
  | some s =>
    rw [to_num_some] at h
    exact pyFloatL_isDec _ q h

lemma to_yoy_isDec (cell : Option String) (q : ℚ) (h : to_yoy cell = .ok (some q)) :
    IsDec q := by
  cases cell with
  | none => cases h
  | some s =>
    rw [to_yoy_some] at h
    split at h
    · cases h
    · split at h
      next q2 hq2 =>
        cases h
        exact pyFloatL_isDec _ _ hq2
      next => cases h

end DSD
namespace DSD

/-! ## C9: the CSV roundtrip -/

/-- The invariants of a normalized output row that the CSV roundtrip
relies on: the period string is strip-stable and parses back to `_dt`,
and every numeric field the re-import reads is an exact decimal. -/
def RowInv (r : NRow) : Prop :=
  String.mk (pyStripL r.«월».data) = r.«월» ∧
  parse_ym r.«월» = some r.dt ∧
  IsDec r.«매출액» ∧
  (∀ q, r.«전년동월» = some q → IsDec q) ∧
  (∀ q, r.«증감률» = some q → IsDec q)

lemma mem_zipWith {α β γ : Type} (f : α → β → γ) :
    ∀ (as : List α) (bs : List β) (c : γ), c ∈ List.zipWith f as bs →
      ∃ a ∈ as, ∃ b ∈ bs, c = f a b := by
  intro as
  induction as with
  | nil => intro bs c h; cases h
  | cons a as2 ih =>
    intro bs c h
    cases bs with
    | nil => cases h
    | cons b bt =>
      rw [List.zipWith_cons_cons, List.mem_cons] at h
      rcases h with rfl | h
      · exact ⟨a, List.mem_cons_self _ _, b, List.mem_cons_self _ _, rfl⟩
      · obtain ⟨a2, ha2, b2, hb2, rfl⟩ := ih bt c h
        exact ⟨a2, List.mem_cons_of_mem _ ha2, b2, List.mem_cons_of_mem _ hb2, rfl⟩

lemma mapM_ok_mem {α β : Type} (f : α → Except NormError β) :
    ∀ (l : List α) (ys : List β), l.mapM f = .ok ys →
      ∀ y ∈ ys, ∃ x ∈ l, f x = .ok y := by
  intro l
  induction l with
  | nil =>
    intro ys h y hy
    simp only [List.mapM_nil] at h
    cases h
    cases hy
  | cons a t ih =>
    intro ys h y hy
    rw [List.mapM_cons] at h
    cases hfa : f a with
    | error e => rw [hfa] at h; simp [Bind.bind, Except.bind] at h
    | ok b =>
      rw [hfa] at h
      cases hmt : t.mapM f with
      | error e => rw [hmt] at h; simp [Bind.bind, Except.bind, Functor.map, Except.map] at h
      | ok bs =>
        rw [hmt] at h
        simp only [Bind.bind, Except.bind, Functor.map, Except.map] at h
        cases h
        rcases List.mem_cons.mp hy with rfl | hy2
        · exact ⟨a, List.mem_cons_self _ _, hfa⟩
        · obtain ⟨x, hx, hfx⟩ := ih bs hmt y hy2
          exact ⟨x, List.mem_cons_of_mem _ hx, hfx⟩

lemma mapM_map {α β γ : Type} (g : α → β) (f : β → Except NormError γ) (l : List α) :
    (l.map g).mapM f = l.mapM (fun a => f (g a)) := by
  induction l with
  | nil => rfl
  | cons a t ih => rw [List.map_cons, List.mapM_cons, List.mapM_cons, ih]

/-- Every row of a successfully normalized table carries the roundtrip
invariants: its period is a stripped string whose parse is its `_dt`, and
its numeric cells are exact decimals (they came out of `float()` on
decimal digit strings). -/
lemma rowInv_of_ok (t : RawTable) (out : List NRow) (h : normalize_df t = .ok out) :
    ∀ r ∈ out, RowInv r := by
  obtain ⟨-, yoys, hy, rfl⟩ := (normalize_ok_iff t out).mp h
  intro r hr
  rw [normalizeRows] at hr
  obtain ⟨p, hp, c, rfl⟩ := derive_mem _ _ _ hr
  have hpk : p ∈ keptRows t yoys := (sortedRows_perm t yoys).mem_iff.mp hp
  rw [keptRows, List.mem_filter] at hpk
  obtain ⟨hpre, hkeep⟩ := hpk
  rw [preRows] at hpre
  obtain ⟨row, hrow, y, hymem, rfl⟩ := mem_zipWith _ _ _ _ hpre
  rw [keepRow, Bool.and_eq_true] at hkeep
  obtain ⟨hdt, hsal⟩ := hkeep
  obtain ⟨d, hd⟩ := Option.isSome_iff_exists.mp hdt
  obtain ⟨q, hq⟩ := Option.isSome_iff_exists.mp hsal
  have hmon : (rowTotal (preOf (strippedHeaders t) row y) c).«월» =
      String.mk (pyStripL (pyStr (cellAt (strippedHeaders t)
        (resolvedCol (strippedHeaders t) "월") row)).data) := rfl
  refine ⟨?_, ?_, ?_, ?_, ?_⟩
  · rw [hmon, pyStripL_idem]
  · have h1 : (rowTotal (preOf (strippedHeaders t) row y) c).dt =
        ((preOf (strippedHeaders t) row y).dt).getD 0 := rfl
    have h2 : parse_ym ((rowTotal (preOf (strippedHeaders t) row y) c).«월») =
        (preOf (strippedHeaders t) row y).dt := rfl
    rw [h1, h2, hd]
    rfl
  · have h1 : (rowTotal (preOf (strippedHeaders t) row y) c).«매출액» =
        ((preOf (strippedHeaders t) row y).«매출액»).getD 0 := rfl
    have h2 : (preOf (strippedHeaders t) row y).«매출액» =
        to_num (cellAt (strippedHeaders t) (resolvedCol (strippedHeaders t) "매출액") row) := rfl
    rw [h1, hq]
    rw [h2] at hq
    exact to_num_isDec _ q hq
  · intro q2 hq2
    have h2 : (rowTotal (preOf (strippedHeaders t) row y) c).«전년동월» =
        to_num (cellAt (strippedHeaders t) (resolvedCol (strippedHeaders t) "전년동월") row) := rfl
    rw [h2] at hq2
    exact to_num_isDec _ q2 hq2
  · intro q2 hq2
    have h2 : (rowTotal (preOf (strippedHeaders t) row y) c).«증감률» = y := rfl
    rw [h2] at hq2
    subst hq2
    obtain ⟨cell, -, hcell⟩ := mapM_ok_mem to_yoy (yoyCells t) yoys hy (some q2) hymem
    exact to_yoy_isDec cell q2 hcell

/-- The derived-column equations down a normalized row list: each row's
누적매출 extends the accumulator by its 매출액, and its 매출차액 follows
the `fillna(0)` formula. -/
def cumChain (acc : ℚ) : List NRow → Prop
  | [] => True
  | r :: rest =>
    r.«누적매출» = acc + r.«매출액» ∧
    r.«매출차액» = (match r.«전년동월» with
      | some q => r.«매출액» - q
      | none => 0) ∧
    cumChain r.«누적매출» rest

lemma cumChain_cons (acc : ℚ) (r : NRow) (rest : List NRow) :
    cumChain acc (r :: rest) =
      (r.«누적매출» = acc + r.«매출액» ∧
       r.«매출차액» = (match r.«전년동월» with
         | some q => r.«매출액» - q
         | none => 0) ∧
       cumChain r.«누적매출» rest) := rfl

lemma derive_cumChain (acc : ℚ) (l : List PreRow) : cumChain acc (derive acc l) := by
  induction l generalizing acc with
  | nil => trivial
  | cons p rest ih =>
    rw [derive_cons, cumChain_cons]
    exact ⟨rfl, rfl, ih _⟩

/-- The intermediate row that a normalized row reads back as on
re-import. -/
def preProj (r : NRow) : PreRow :=
  { «월» := r.«월», «매출액» := some r.«매출액», «전년동월» := r.«전년동월»,
    «증감률» := r.«증감률», dt := some r.dt }

lemma derive_preProj : ∀ (out : List NRow) (acc : ℚ), cumChain acc out →
    derive acc (out.map preProj) = out := by
  intro out
  induction out with
  | nil => intro acc _; rfl
  | cons r rest ih =>
    intro acc hch
    rw [cumChain_cons] at hch
    obtain ⟨h1, h2, h3⟩ := hch
    rw [List.map_cons, derive_cons]
    have hs : (preProj r).«매출액».getD 0 = r.«매출액» := rfl
    rw [hs]
    have hhead : rowTotal (preProj r) (acc + r.«매출액») = r := by
      have e : rowTotal (preProj r) (acc + r.«매출액») =
          { «월» := r.«월», «매출액» := r.«매출액», «전년동월» := r.«전년동월»,
            «증감률» := r.«증감률», dt := r.dt,
            «매출차액» := (match r.«전년동월» with
              | some q => r.«매출액» - q
              | none => 0),
            «누적매출» := acc + r.«매출액» } := rfl
      rw [e, ← h2, ← h1]
    rw [hhead]
    have hacc : acc + r.«매출액» = r.«누적매출» := h1.symm
    rw [hacc]
    rw [ih _ h3]

/-- A key list that is already non-decreasing is stably argsorted by the
identity permutation. -/
lemma stableArgsort_of_sorted (keys : List Int)
    (h : List.Pairwise (fun a b : Int => a ≤ b) keys) :
    stableArgsort keys = List.range keys.length := by
  rw [stableArgsort]
  have hp : List.Pairwise (idxLe keys) (List.range keys.length) := by
    rw [List.pairwise_iff_getElem]
    intro i j hi hj hij
    rw [List.length_range] at hi hj
    rw [List.getElem_range, List.getElem_range]
    rw [List.pairwise_iff_getElem] at h
    have hk : keys.getD i 0 ≤ keys.getD j 0 := by
      rw [List.getD_eq_getElem _ _ hi, List.getD_eq_getElem _ _ hj]
      exact h i j hi hj hij
    unfold idxLe
    rcases lt_or_eq_of_le hk with hlt | heq
    · exact Or.inl hlt
    · exact Or.inr ⟨heq, le_of_lt hij⟩
  exact List.Sorted.insertionSort_eq hp

/-- In the insertion-sort regime the normalized rows are non-decreasing in
`_dt`. -/
lemma normalize_dt_mono (t : RawTable) (out : List NRow)
    (h : normalize_df t = .ok out) (hsmall : out.length ≤ 16) :
    List.Pairwise (fun a b : NRow => a.dt ≤ b.dt) out := by
  obtain ⟨-, yoys, hy, rfl⟩ := (normalize_ok_iff t out).mp h
  have hlen : (sortKeys t yoys).length ≤ 16 := by
    have h1 : (normalizeRows t yoys).length = (sortedRows t yoys).length :=
      normalizeRows_length t yoys
    have h2 : (sortedRows t yoys).length = (npargsort (sortKeys t yoys)).length := by
      rw [sortedRows, List.length_map]
    rw [npargsort_length] at h2
    omega
  have hsort : sortedRows t yoys =
      (stableArgsort (sortKeys t yoys)).map
        (fun i => (keptRows t yoys).getD i default) := by
    rw [sortedRows, npargsort_small _ hlen]
  have hmap : ((normalizeRows t yoys).map (fun r => r.dt)).Pairwise
      (fun a b : Int => a ≤ b) := by
    rw [normalizeRows, derive_map_dt, hsort, List.map_map]
    have hcong : (stableArgsort (sortKeys t yoys)).map
        ((fun p : PreRow => p.dt.getD 0) ∘ (fun i => (keptRows t yoys).getD i default)) =
        (stableArgsort (sortKeys t yoys)).map
          (fun i => (sortKeys t yoys).getD i 0) := by
      apply List.map_eq_map_iff.mpr
      intro i hi
      have hilen : i < (keptRows t yoys).length := by
        have := stableArgsort_mem _ i hi
        rwa [sortKeys_length] at this
      simp only [Function.comp]
      rw [sortKeys, getD_map _ _ _ hilen 0 default]
    rw [hcong]
    apply List.pairwise_map.mpr
    apply (stableArgsort_sorted (sortKeys t yoys)).imp
    intro i j hij
    rcases hij with hlt | ⟨heq, -⟩
    · exact le_of_lt hlt
    · exact le_of_eq heq
  exact List.pairwise_map.mp hmap

/-- The header row and a data row of the re-exported CSV. -/
def exportHdrs : List String :=
  ["월", "매출액", "전년동월", "증감률", "매출차액", "누적매출"]

def exportRow (r : NRow) : List (Option String) :=
  [some r.«월», some (fmtQ r.«매출액»), optCell r.«전년동월»,
   optCell r.«증감률», some (fmtQ r.«매출차액»), some (fmtQ r.«누적매출»)]

lemma export_strippedHeaders (out : List NRow) :
    strippedHeaders (exportTable out) = exportHdrs := rfl

lemma export_missing (out : List NRow) :
    missingOf (strippedHeaders (exportTable out)) = [] := by
  rw [export_strippedHeaders]
  rfl

lemma export_yoyCells (out : List NRow) :
    yoyCells (exportTable out) = out.map (fun r => optCell r.«증감률») := by
  have h : yoyCells (exportTable out) =
      (out.map exportRow).map (fun row => row.getD 3 none) := rfl
  rw [h, List.map_map]
  rfl

lemma export_mapM_yoy (out : List NRow) (hinv : ∀ r ∈ out, RowInv r) :
    (yoyCells (exportTable out)).mapM to_yoy =
      .ok (out.map (fun r => r.«증감률»)) := by
  rw [export_yoyCells, mapM_map]
  exact mapM_ok_of_forall _ _ _ (fun r hr => to_yoy_optCell _ (hinv r hr).2.2.2.2)

lemma preOf_exportRow (r : NRow) (hinv : RowInv r) :
    preOf exportHdrs (exportRow r) r.«증감률» = preProj r := by
  obtain ⟨h1, h2, h3, h4, -⟩ := hinv
  have hmon : monthOfCell (some r.«월») = r.«월» := h1
  have hsal : to_num (some (fmtQ r.«매출액»)) = some r.«매출액» := to_num_fmtQ _ h3
  have hly : to_num (optCell r.«전년동월») = r.«전년동월» := by
    cases hcase : r.«전년동월» with
    | none => rfl
    | some q => exact to_num_fmtQ q (h4 q hcase)
  have he : preOf exportHdrs (exportRow r) r.«증감률» =
      { «월» := monthOfCell (some r.«월»),
        «매출액» := to_num (some (fmtQ r.«매출액»)),
        «전년동월» := to_num (optCell r.«전년동월»),
        «증감률» := r.«증감률»,
        dt := parse_ym (monthOfCell (some r.«월»)) } := rfl
  rw [he, hmon, hsal, hly, h2]
  rfl

lemma export_preRows (out : List NRow) (hinv : ∀ r ∈ out, RowInv r) :
    preRows (exportTable out) (out.map (fun r => r.«증감률»)) = out.map preProj := by
  have h : preRows (exportTable out) (out.map (fun r => r.«증감률»)) =
      List.zipWith (fun row y => preOf exportHdrs row y)
        (out.map exportRow) (out.map (fun r => r.«증감률»)) := rfl
  rw [h, List.zipWith_map_left, List.zipWith_map_right, List.zipWith_same]
  apply List.map_eq_map_iff.mpr
  intro r hr
  exact preOf_exportRow r (hinv r hr)

lemma export_keptRows (out : List NRow) (hinv : ∀ r ∈ out, RowInv r) :
    keptRows (exportTable out) (out.map (fun r => r.«증감률»)) = out.map preProj := by
  rw [keptRows, export_preRows out hinv]
  apply List.filter_eq_self.mpr
  intro p hp
  obtain ⟨r, -, rfl⟩ := List.mem_map.mp hp
  rfl

lemma export_sortKeys (out : List NRow) (hinv : ∀ r ∈ out, RowInv r) :
    sortKeys (exportTable out) (out.map (fun r => r.«증감률»)) =
      out.map (fun r => r.dt) := by
  rw [sortKeys, export_keptRows out hinv, List.map_map]
  rfl

/-- C9, amended: whenever at most 16 rows survive the filter (the stable
insertion-sort regime of numpy's quicksort), re-importing the exported
CSV through `normalize_df` reproduces the normalized table exactly — the
resolver re-matches the Korean headers and every column (period string,
매출액, 전년동월, 증감률, 매출차액, 누적매출, `_dt`) comes back
unchanged.  Beyond 16 rows the unstable sort can reorder equal periods,
so the claim fails there (`C9_counterexample`). -/
theorem C9_roundtrip_small (t : RawTable) (out : List NRow)
    (h : normalize_df t = .ok out) (hsmall : out.length ≤ 16) :
    normalize_df (exportTable out) = .ok out := by
  have hinv := rowInv_of_ok t out h
  have hmono := normalize_dt_mono t out h hsmall
  have hchain : cumChain 0 out := by
    obtain ⟨-, yoys, -, rfl⟩ := (normalize_ok_iff t out).mp h
    rw [normalizeRows]
    exact derive_cumChain 0 _
  apply (normalize_ok_iff _ _).mpr
  refine ⟨export_missing out, out.map (fun r => r.«증감률»),
    export_mapM_yoy out hinv, ?_⟩
  have hlen2 : (out.map (fun r => r.dt)).length ≤ 16 := by
    rw [List.length_map]
    exact hsmall
  have hsr : sortedRows (exportTable out) (out.map (fun r => r.«증감률»)) =
      out.map preProj := by
    rw [sortedRows, export_sortKeys out hinv, export_keptRows out hinv,
      npargsort_small _ hlen2,
      stableArgsort_of_sorted _ (List.pairwise_map.mpr hmono)]
    have hlen3 : (out.map (fun r => r.dt)).length = (out.map preProj).length := by
      rw [List.length_map, List.length_map]
    rw [hlen3, map_getD_range]
  rw [normalizeRows, hsr]
  exact (derive_preProj out 0 hchain).symm

def c9wTable : RawTable :=
  { headers := ["Month", "Sales", "LY", "YoY"],
    rows := [[some "2024-02", some "1200", some "1000", some "20.0%"],
             [some "2024-01", some "1000.5", none, none]] }

def c9wOut : List NRow :=
  [{ «월» := "2024-01", «매출액» := 2001/2, «전년동월» := none, «증감률» := none,
     dt := 24289, «매출차액» := 0, «누적매출» := 2001/2 },
   { «월» := "2024-02", «매출액» := 1200, «전년동월» := some 1000, «증감률» := some 20,
     dt := 24290, «매출차액» := 200, «누적매출» := 4401/2 }]

/-- Witness for `C9_roundtrip_small`: a two-row table with English
headers, a fractional sales value and a percent-signed YoY cell
normalizes, exports, and re-imports to the identical table. -/
theorem C9_roundtrip_small_witness :
    normalize_df c9wTable = .ok c9wOut ∧ c9wOut.length ≤ 16 ∧
    normalize_df (exportTable c9wOut) = .ok c9wOut :=
  ⟨by decide!, by decide!, C9_roundtrip_small c9wTable c9wOut (by decide!) (by decide!)⟩

def c9Out2 : List NRow :=
  [c3Row 1 1, c3Row 2 3, c3Row 3 6, c3Row 4 10, c3Row 5 15, c3Row 6 21,
   c3Row 7 28, c3Row 8 36, c3Row 9 45, c3Row 10 55, c3Row 11 66, c3Row 12 78,
   c3Row 13 91, c3Row 14 105, c3Row 15 120, c3Row 16 136, c3Row 17 153]

/-- C9, as stated, is false: the 17-equal-period table normalizes to
`c3Out` (sales scrambled by the unstable quicksort); exporting `c3Out`
and re-importing applies the same permutation again, giving back sales
1..17 — so the re-imported 매출액 and 누적매출 columns differ from the
exported ones. -/
theorem C9_counterexample :
    normalize_df c3Table = .ok c3Out ∧
    normalize_df (exportTable c3Out) = .ok c9Out2 ∧
    c9Out2.map (fun r => r.«매출액») ≠ c3Out.map (fun r => r.«매출액») ∧
    c9Out2.map (fun r => r.«누적매출») ≠ c3Out.map (fun r => r.«누적매출») :=
  ⟨by decide!, by decide!, by decide!, by decide!⟩

end DSD
